import Mathlib

/-!
# gol-sh: a toroidal Game of Life stepper

Shallow embedding of `src/cpp/main.cpp` (`seed_initial`, `update`) and the
properties of the stepper stated in the specification.

Conventions of the embedding:
* C++ `int` values are integers in the 32-bit range; `%` is the truncating
  remainder `Int.tmod`. Every `int` sum and increment of `update` is reduced to
  32 bits in two's complement (`wrap_int`), which is what the compiled program
  computes on the usual targets (signed overflow is undefined behaviour in C++).
  The properties of `update` that rest on the wrapped neighbour are stated for
  the grids whose coordinate sums do no harm (`Fits`); what the overflow does
  beyond is shown on concrete inputs.
* `Grid` (`std::unordered_set<Coord>`) is the list of its elements in the
  order the container iterates them; the container holds no duplicates, so a
  well-formed grid is a `Nodup` list, and every statement is made for an
  arbitrary iteration order.
* `candidate_counts` (`std::unordered_map<Coord,int>`) is an association list
  in iteration order.
-/

namespace GolSh

/-- A coordinate: `std::pair<int,int>`. -/
abbrev Coord := Int × Int

/-- The live-cell set, `std::unordered_set<Coord, CoordHash>`, in iteration order. -/
abbrev Grid := List Coord

/-- The map `std::unordered_map<Coord, int, CoordHash>`, in iteration order. -/
abbrev Counts := List (Coord × Int)

/-- The map `std::unordered_map<Coord, unsigned int, CoordHash>`. -/
abbrev Heatmap := List (Coord × Nat)

/-- The value an `int` holds after an arithmetic result `v`: `v` reduced to 32 bits,
two's complement. -/
def wrap_int (v : Int) : Int :=
  (v + 2147483648) % 4294967296 - 2147483648

/-- The statement `++n` on an `int`. -/
def incr (n : Int) : Int :=
  wrap_int (n + 1)

/-- Set insertion (`std::unordered_set::insert` / `emplace`): a present element is left alone. -/
def Grid.insert (g : Grid) (c : Coord) : Grid :=
  if c ∈ g then g else c :: g

/-- The statement `++candidate_counts[k]`: a missing key is created with value 0,
then the value is incremented. -/
def increment : Counts → Coord → Counts
  | [], k => [(k, incr 0)]
  | (k', n) :: rest, k =>
    if k' = k then (k', incr n) :: rest else (k', n) :: increment rest k

/-- The statement `heatmap[loc] = 0`. -/
def Heatmap.reset : Heatmap → Coord → Heatmap
  | [], k => [(k, 0)]
  | (k', n) :: rest, k =>
    if k' = k then (k', 0) :: rest else (k', n) :: Heatmap.reset rest k

/-- The pairs `(dx, dy)` visited by the two nested loops of `update`
(`dy` outer, `dx` inner, both from -1 to 1), with `(0,0)` skipped by `continue`. -/
def offsets : List (Int × Int) :=
  ([-1, 0, 1] : List Int).flatMap fun dy =>
    ([-1, 0, 1] : List Int).filterMap fun dx =>
      if dx = 0 ∧ dy = 0 then none else some (dx, dy)

/-- The test `x >= 0 && x < window_width && y >= 0 && y < window_height`. -/
def in_window (window_width window_height : Int) (c : Coord) : Bool :=
  decide (c.1 ≥ 0 ∧ c.1 < window_width ∧ c.2 ≥ 0 ∧ c.2 < window_height)

/-- The coordinate `neighbor = {nx, ny}` computed in the inner loop body:
`(x + dx + window_width) % window_width` and likewise for `y`, each of the two
additions an `int` addition. -/
def neighbor (window_width window_height : Int) (cell : Coord) (d : Int × Int) : Coord :=
  (Int.tmod (wrap_int (wrap_int (cell.1 + d.1) + window_width)) window_width,
   Int.tmod (wrap_int (wrap_int (cell.2 + d.2) + window_height)) window_height)

/-- One pass of the inner loop body of `update`; the accumulator is
`(alive_neighbors, candidate_counts)`. -/
def visit_neighbor (window_width window_height : Int) (current : Grid) (cell : Coord)
    (acc : Int × Counts) (d : Int × Int) : Int × Counts :=
  let nb := neighbor window_width window_height cell d
  if nb ∈ current then (incr acc.1, acc.2) else (acc.1, increment acc.2 nb)

/-- The local state of `update` while it runs over the live cells. -/
structure Tally where
  next : Grid
  candidate_counts : Counts
  visible_alive_count : Int

/-- The body of the loop `for (const Coord &cell : current)` of `update`. -/
def visit_cell (window_width window_height : Int) (current : Grid)
    (st : Tally) (cell : Coord) : Tally :=
  let r := offsets.foldl (visit_neighbor window_width window_height current cell)
    (0, st.candidate_counts)
  if r.1 = 2 ∨ r.1 = 3 then
    { next := st.next.insert cell
      candidate_counts := r.2
      visible_alive_count :=
        if in_window window_width window_height cell then incr st.visible_alive_count
        else st.visible_alive_count }
  else
    { next := st.next
      candidate_counts := r.2
      visible_alive_count := st.visible_alive_count }

/-- The body of the loop over `candidate_counts` of `update`; the accumulator is
`(next, visible_alive_count)`. -/
def visit_candidate (window_width window_height : Int)
    (acc : Grid × Int) (e : Coord × Int) : Grid × Int :=
  if e.2 = 3 then
    (acc.1.insert e.1,
     if in_window window_width window_height e.1 then incr acc.2 else acc.2)
  else acc

/-- The function `update`: the pair of the grid left in `current` and the returned flag.
The parameters `heatmap`, `heated_cells`, `stable_ratio` and `cfg` are neither read
nor written by the function and are left out. -/
def update (window_width window_height : Int) (current : Grid) : Grid × Bool :=
  let st := current.foldl (visit_cell window_width window_height current)
    { next := [], candidate_counts := [], visible_alive_count := 0 }
  let r := st.candidate_counts.foldl (visit_candidate window_width window_height)
    (st.next, st.visible_alive_count)
  (r.1, decide (r.2 > 0))

/-- The function `seed_initial`. The generator is the sequence `chance` of the
values drawn by `chance(gen)`, indexed by the number of draws made before; the
result is the pair of `grid` and `heatmap` after the call. -/
def seed_initial (grid : Grid) (window_width window_height spawn_rate : Int)
    (chance : Nat → Int) : Grid × Heatmap :=
  (List.range window_height.toNat).foldl
    (fun acc y =>
      (List.range window_width.toNat).foldl
        (fun acc x =>
          if chance (y * window_width.toNat + x) < spawn_rate then
            (acc.1.insert ((x : Int), (y : Int)), acc.2.reset ((x : Int), (y : Int)))
          else acc)
        acc)
    (grid, [])

/-! ## Configuration, colours, rendering and the driver

Text written to `std::cout` is modelled as the list of the operands of `<<`, in the
order they are written; `emitted` below is the character sequence they form.
Strings are sequences of characters. Calls of `sleep_for` produce no output and are
left out. -/

/-- The constant `ANSI_RESET`. -/
def ANSI_RESET : String := "\x1b[0m"

/-- The table `COLORS`: colour name to base code. -/
def COLORS : List (String × Int) :=
  [("black", 0), ("red", 1), ("green", 2), ("yellow", 3), ("blue", 4),
   ("magenta", 5), ("cyan", 6), ("white", 7), ("default", 9)]

/-- The record `Config`, with the defaults of the source. -/
structure Config where
  window_width : Int := -1
  window_height : Int := -1
  init_coverage : Int := 10
  stable_treshold : Int := 70
  heat_treshold : Int := 50
  speed_ms : Int := 250
  repopulate : Bool := true
  color_fg : String := ""
  color_bg : String := ""
  cell : String := "█"
  wall_horizontal : String := "─"
  wall_vertical : String := "│"
  corner_ul : String := "┌"
  corner_ur : String := "┐"
  corner_ll : String := "└"
  corner_lr : String := "┘"

/-- The function `ansi_color_code` (`std::to_string` of an `int` is its decimal text). -/
def ansi_color_code (color : String) (background : Bool) : String :=
  match COLORS.lookup color with
  | none => ""
  | some n => "\x1b[" ++ toString ((if background then (40 : Int) else 30) + n) ++ "m"

/-- The function `get_terminal_size`: `ws` is `some (ws_col, ws_row)` when the `ioctl`
call returns 0, `none` when it fails. The result is `(window_width, window_height)`. -/
def get_terminal_size (ws : Option (Nat × Nat)) : Int × Int :=
  match ws with
  | some (ws_col, ws_row) => ((ws_col : Int), (ws_row : Int))
  | none => (80, 24)

/-- The body of the loop over `y` in `render`: one row of the grid area. -/
def grid_row (grid : Grid) (window_width : Int) (cfg : Config) (y : Nat) : List String :=
  [cfg.wall_vertical] ++
  ((List.range window_width.toNat).map fun (x : Nat) =>
    if ((x : Int), (y : Int)) ∈ grid then cfg.cell else " ") ++
  [cfg.wall_vertical, "\n"]

/-- The function `render`. The parameter `stable_ratio` is the text `operator<<` prints
for the `float` of that name (`"0"` for the value `0.0F`). -/
def render (grid : Grid) (window_width window_height : Int) (cfg : Config)
    (stable_ratio : String) : List String :=
  [ansi_color_code cfg.color_fg false, ansi_color_code cfg.color_bg true,
    " Alive cells: ", toString grid.length, " (", stable_ratio, " % stable)", "\x1b[K\n"] ++
  ([cfg.corner_ul] ++ List.replicate window_width.toNat cfg.wall_horizontal ++
    [cfg.corner_ur, "\n"]) ++
  ((List.range window_height.toNat).flatMap fun (y : Nat) =>
    grid_row grid window_width cfg y) ++
  ([cfg.corner_ll] ++ List.replicate window_width.toNat cfg.wall_horizontal ++
    [cfg.corner_lr, ANSI_RESET])

/-- The call `arg.find(c)`: the position of the first `c`, if any. -/
def find_char (c : Char) : List Char → Option Nat
  | [] => none
  | x :: xs => if x = c then some 0 else (find_char c xs).map (· + 1)

/-- The lambda `value` of `parse_args`, given the argument that follows `arg`, if any:
the text after the first `=` of `arg`, else the result of `next()`, which is the
following argument (then consumed: the flag of the result is `true`) or `""`. -/
def value (arg : String) (following : Option String) : String × Bool :=
  match find_char '=' arg.data with
  | some eq => (String.mk (arg.data.drop (eq + 1)), false)
  | none =>
    match following with
    | some v => (v, true)
    | none => ("", false)

/-- The test `arg.rfind(p, 0) == 0`: `arg` starts with `p`. -/
def starts_with (arg p : String) : Bool :=
  p.data.isPrefixOf arg.data

/-- How `parse_args` ends: it returns with the configuration filled in, it calls
`std::exit(0)` after printing the usage text, or `std::stoi` throws. -/
inductive Parsed where
  | done (cfg : Config)
  | help
  | thrown

/-- The call `std::clamp(v, lo, hi)`. -/
def clamp (v lo hi : Int) : Int :=
  if v < lo then lo else if hi < v then hi else v

/-- The loop of `parse_args` over the arguments that remain. `skip` is set when the
previous pass consumed the next argument through `next()` (the `++i` inside the
lambda). The library function `std::stoi` is a parameter: `none` stands for a throw. -/
def parse_loop (stoi : String → Option Int) : List String → Bool → Config → Parsed
  | [], _, cfg => Parsed.done cfg
  | _ :: rest, true, cfg => parse_loop stoi rest false cfg
  | arg :: rest, false, cfg =>
    if arg = "--help" then Parsed.help
    else if starts_with arg "--window-width" then
      match stoi (value arg rest.head?).1 with
      | none => Parsed.thrown
      | some n => parse_loop stoi rest (value arg rest.head?).2 { cfg with window_width := n }
    else if starts_with arg "--window-height" then
      match stoi (value arg rest.head?).1 with
      | none => Parsed.thrown
      | some n => parse_loop stoi rest (value arg rest.head?).2 { cfg with window_height := n }
    else if starts_with arg "--init-coverage" then
      match stoi (value arg rest.head?).1 with
      | none => Parsed.thrown
      | some n => parse_loop stoi rest (value arg rest.head?).2 { cfg with init_coverage := n }
    else if starts_with arg "--speed" then
      match stoi (value arg rest.head?).1 with
      | none => Parsed.thrown
      | some n =>
        parse_loop stoi rest (value arg rest.head?).2 { cfg with speed_ms := clamp n 100 10000 }
    else if starts_with arg "--color-fg" then
      parse_loop stoi rest (value arg rest.head?).2 { cfg with color_fg := (value arg rest.head?).1 }
    else if starts_with arg "--color-bg" then
      parse_loop stoi rest (value arg rest.head?).2 { cfg with color_bg := (value arg rest.head?).1 }
    else if starts_with arg "--tile-cell" then
      parse_loop stoi rest (value arg rest.head?).2 { cfg with cell := (value arg rest.head?).1 }
    else if starts_with arg "--one-universe" then
      parse_loop stoi rest false { cfg with repopulate := false }
    else parse_loop stoi rest false cfg

/-- The function `parse_args`: the loop starts at `argv[1]`. -/
def parse_args (stoi : String → Option Int) (argv : List String) (cfg : Config) : Parsed :=
  parse_loop stoi argv.tail false cfg

/-- The viewport `(grid_window_width, grid_window_height)` computed by `main`. -/
def grid_window (cfg : Config) (term : Int × Int) : Int × Int :=
  (if cfg.window_width > 0 then cfg.window_width else term.1 - 2,
   if cfg.window_height > 0 then cfg.window_height else term.2 - 3)

/-- The loop `while (true)` of `main`. `fuel` bounds the number of passes, `seeded` counts
the calls of `seed_initial` made so far and `draws k` is the sequence of values drawn
during call number `k`. The result is the text written until the `break`, or `none`
when the loop is still running after `fuel` passes. -/
def main_loop (W H : Int) (cfg : Config) (draws : Nat → Nat → Int) :
    Nat → Nat → Grid → Option (List String)
  | 0, _, _ => none
  | fuel + 1, seeded, current =>
    let frame := ["\x1b[H"] ++ render current W H cfg "0"
    let r := update W H current
    if r.2 then
      (main_loop W H cfg draws fuel seeded r.1).map fun out => frame ++ out
    else
      let last := ["\x1b[H"] ++ render r.1 W H cfg "0"
      if cfg.repopulate then
        (main_loop W H cfg draws fuel (seeded + 1)
          (seed_initial [] W H cfg.init_coverage (draws seeded)).1).map fun out =>
          frame ++ last ++
            ["\x1b[2J\x1b[H", "This universe is doomed, but there is another...\n",
             "Creating new Big Bang...\n"] ++ out
      else
        some (frame ++ last ++ ["Simulation ended: all visible cells dead.\n"])

/-- The function `main` after `parse_args` has filled `cfg`: the text written and the
value returned, or `none` when the loop is still running after `fuel` passes. -/
def run (cfg : Config) (ws : Option (Nat × Nat)) (draws : Nat → Nat → Int) (fuel : Nat) :
    Option (List String × Int) :=
  let W := (grid_window cfg (get_terminal_size ws)).1
  let H := (grid_window cfg (get_terminal_size ws)).2
  (main_loop W H cfg draws fuel 1 (seed_initial [] W H cfg.init_coverage (draws 0)).1).map
    fun out => (out, 0)

/-- The characters of the text formed by a sequence of written strings. -/
def emitted (chunks : List String) : List Char :=
  chunks.flatMap String.data

/-! ## Auxiliary notions used to state and prove the properties -/

/-- The value stored under key `k` in a `Counts` map, 0 when the key is absent. -/
def count_of : Counts → Coord → Int
  | [], _ => 0
  | (k', n) :: rest, k => if k' = k then n else count_of rest k

/-- Representation invariant of a `Counts` map: keys are unique. -/
def CountsOk (m : Counts) : Prop :=
  (m.map Prod.fst).Nodup

/-- The number of offsets whose neighbour, as `update` computes it, is live. -/
def alive_neighbors (W H : Int) (current : Grid) (cell : Coord) : Nat :=
  offsets.countP fun d => decide (neighbor W H cell d ∈ current)

/-- The number of increments the cells of `cs` apply to the key `k`, when `k` is dead. -/
def tally (W H : Int) (cs : List Coord) (k : Coord) : Nat :=
  (cs.map fun c => offsets.countP fun d => decide (neighbor W H c d = k)).sum

/-- The wrapped neighbour of the specification: `((x+dx) mod W, (y+dy) mod H)`,
with the mathematical (non-negative) remainder. -/
def wrapped (W H : Int) (c : Coord) (d : Int × Int) : Coord :=
  ((c.1 + d.1) % W, (c.2 + d.2) % H)

/-- The number of the eight offsets around `c` whose wrapped neighbour is in `G`. -/
def live_neighbours (W H : Int) (G : Grid) (c : Coord) : Nat :=
  offsets.countP fun d => decide (wrapped W H c d ∈ G)

/-- Two grids hold the same cells (they are equal as sets). -/
def SameCells (A B : Grid) : Prop :=
  ∀ c, c ∈ A ↔ c ∈ B

/-- Every cell of the grid lies in `[0,W) × [0,H)`. -/
def InViewport (W H : Int) (G : Grid) : Prop :=
  ∀ c ∈ G, 0 ≤ c.1 ∧ c.1 < W ∧ 0 ≤ c.2 ∧ c.2 < H

/-- No sum `x + dx + W` or `y + dy + H` that `update` forms for a cell `(x,y)` of the
grid exceeds the largest `int`, `2^31 - 1`; or the size is `2^30`, where the one sum
that overflows for a cell of the viewport, `2^31` at `x = W - 1`, wraps to `-2^31`, a
multiple of the size, as the sum itself. -/
def Fits (W H : Int) (G : Grid) : Prop :=
  ∀ c ∈ G, (c.1 + W < 2147483647 ∨ W = 1073741824) ∧
    (c.2 + H < 2147483647 ∨ H = 1073741824)

/-- The number of cells of a grid that pass the viewport test of `update`. -/
def visible_cells (W H : Int) (G : Grid) : Nat :=
  G.countP (in_window W H)

/-! ## Basic facts -/

theorem wrap_int_of_range (v : Int) (h0 : -2147483648 ≤ v) (h1 : v < 2147483648) :
    wrap_int v = v := by
  unfold wrap_int
  omega

theorem wrap_int_add (a b : Int) : wrap_int (wrap_int a + b) = wrap_int (a + b) := by
  unfold wrap_int
  omega

theorem incr_wrap_int (a : Int) : incr (wrap_int a) = wrap_int (a + 1) :=
  wrap_int_add a 1

theorem wrap_int_zero : wrap_int 0 = 0 := by
  decide

theorem offsets_eq :
    offsets = [(-1, -1), (0, -1), (1, -1), (-1, 0), (1, 0), (-1, 1), (0, 1), (1, 1)] := by
  decide

theorem mem_insert_iff (g : Grid) (c x : Coord) : x ∈ g.insert c ↔ x = c ∨ x ∈ g := by
  unfold Grid.insert
  split
  · constructor
    · intro h; exact Or.inr h
    · rintro (h | h)
      · subst h; assumption
      · exact h
  · simp

theorem nodup_insert (g : Grid) (c : Coord) (h : g.Nodup) : (g.insert c).Nodup := by
  unfold Grid.insert
  split
  · exact h
  · exact List.nodup_cons.mpr ⟨by assumption, h⟩

theorem insert_of_not_mem (g : Grid) (c : Coord) (h : c ∉ g) : g.insert c = c :: g := by
  unfold Grid.insert
  exact if_neg h

theorem count_of_increment (m : Counts) (k k' : Coord) :
    count_of (increment m k) k' =
      if k = k' then incr (count_of m k') else count_of m k' := by
  induction m with
  | nil =>
    by_cases h : k = k' <;> simp [increment, count_of, h]
  | cons e rest ih =>
    obtain ⟨k0, n⟩ := e
    by_cases h0 : k0 = k
    · subst h0
      by_cases h1 : k0 = k' <;> simp [increment, count_of, h1]
    · by_cases h1 : k0 = k'
      · subst h1
        simp [increment, count_of, h0, Ne.symm h0]
      · simp [increment, count_of, h0, h1, ih]

theorem keys_increment (m : Counts) (k k' : Coord) :
    k' ∈ (increment m k).map Prod.fst ↔ k' = k ∨ k' ∈ m.map Prod.fst := by
  induction m with
  | nil => simp [increment]
  | cons e rest ih =>
    obtain ⟨k0, n⟩ := e
    by_cases h0 : k0 = k
    · subst h0
      simp [increment]
    · simp only [increment, h0, if_false, List.map_cons, List.mem_cons, ih]
      tauto

theorem countsOk_increment (m : Counts) (k : Coord) (h : CountsOk m) :
    CountsOk (increment m k) := by
  unfold CountsOk at h ⊢
  induction m with
  | nil => simp [increment]
  | cons e rest ih =>
    obtain ⟨k0, n⟩ := e
    have hnd' := List.nodup_cons.mp h
    by_cases h0 : k0 = k
    · subst h0
      simpa [increment] using h
    · simp only [increment, h0, if_false, List.map_cons]
      refine List.nodup_cons.mpr ⟨?_, ih hnd'.2⟩
      intro hmem
      rcases (keys_increment rest k k0).mp hmem with e | e
      · exact h0 e
      · exact hnd'.1 e

theorem mem_counts_iff (m : Counts) (h : CountsOk m) (k : Coord) (n : Int) (hn : n ≠ 0) :
    (k, n) ∈ m ↔ count_of m k = n := by
  unfold CountsOk at h
  induction m with
  | nil =>
    simp only [List.not_mem_nil, count_of, false_iff]
    exact fun e => hn e.symm
  | cons e rest ih =>
    obtain ⟨k0, n0⟩ := e
    have hnd' := List.nodup_cons.mp h
    by_cases h0 : k0 = k
    · subst h0
      simp only [List.mem_cons, Prod.mk.injEq, true_and, count_of, if_true]
      constructor
      · rintro (e | e)
        · exact e.symm
        · exact absurd (List.mem_map_of_mem Prod.fst e) hnd'.1
      · intro e
        exact Or.inl e.symm
    · simp only [List.mem_cons, Prod.mk.injEq, count_of, h0, if_false, ih hnd'.2]
      constructor
      · rintro (⟨e, -⟩ | e)
        · exact absurd e.symm h0
        · exact e
      · intro e; exact Or.inr e

/-! ## The inner loop of `update` -/

theorem inner_fst (W H : Int) (cur : Grid) (cell : Coord) (ds : List (Int × Int))
    (a : Int) (m : Counts) (b : Int) (ha : a = wrap_int b) :
    (ds.foldl (visit_neighbor W H cur cell) (a, m)).1 =
      wrap_int (b + ((ds.countP fun d => decide (neighbor W H cell d ∈ cur) : Nat) : Int)) := by
  induction ds generalizing a m b with
  | nil => simpa using ha
  | cons d rest ih =>
    simp only [List.foldl_cons, List.countP_cons]
    by_cases h : neighbor W H cell d ∈ cur
    · simp only [visit_neighbor, h, if_true, decide_True]
      rw [ih (incr a) m (b + 1) (by rw [ha]; exact incr_wrap_int b)]
      congr 1
      push_cast
      omega
    · simp only [visit_neighbor, h, if_false, decide_False]
      rw [ih a _ b ha]
      simp

theorem inner_count (W H : Int) (cur : Grid) (cell : Coord) (ds : List (Int × Int))
    (a : Int) (m : Counts) (k : Coord) (b : Int) (hb : count_of m k = wrap_int b) :
    count_of (ds.foldl (visit_neighbor W H cur cell) (a, m)).2 k =
      wrap_int (b + (if k ∈ cur then 0
        else ((ds.countP fun d => decide (neighbor W H cell d = k) : Nat) : Int))) := by
  induction ds generalizing a m b with
  | nil => simpa using hb
  | cons d rest ih =>
    simp only [List.foldl_cons, List.countP_cons]
    by_cases h : neighbor W H cell d ∈ cur
    · simp only [visit_neighbor, h, if_true]
      rw [ih _ m b hb]
      by_cases hk : k ∈ cur
      · simp [hk]
      · have hne : neighbor W H cell d ≠ k := fun e => hk (e ▸ h)
        simp [hk, hne]
    · simp only [visit_neighbor, h, if_false]
      by_cases he : neighbor W H cell d = k
      · have hk : k ∉ cur := fun hk => h (he ▸ hk)
        rw [ih a _ (b + 1) (by
          rw [count_of_increment, if_pos he, hb]
          exact incr_wrap_int b)]
        simp only [hk, if_false, he, decide_True, if_true]
        congr 1
        push_cast
        omega
      · rw [ih a _ b (by rw [count_of_increment, if_neg he]; exact hb)]
        simp [he]

theorem inner_ok (W H : Int) (cur : Grid) (cell : Coord) (ds : List (Int × Int))
    (a : Int) (m : Counts) (h : CountsOk m) :
    CountsOk (ds.foldl (visit_neighbor W H cur cell) (a, m)).2 := by
  induction ds generalizing a m with
  | nil => simpa using h
  | cons d rest ih =>
    simp only [List.foldl_cons]
    by_cases hm : neighbor W H cell d ∈ cur
    · simp only [visit_neighbor, hm, if_true]
      exact ih _ _ h
    · simp only [visit_neighbor, hm, if_false]
      exact ih _ _ (countsOk_increment _ _ h)

theorem inner_dead (W H : Int) (cur : Grid) (cell : Coord) (ds : List (Int × Int))
    (a : Int) (m : Counts) (h : ∀ k ∈ m.map Prod.fst, k ∉ cur) :
    ∀ k ∈ (ds.foldl (visit_neighbor W H cur cell) (a, m)).2.map Prod.fst, k ∉ cur := by
  induction ds generalizing a m with
  | nil => simpa using h
  | cons d rest ih =>
    simp only [List.foldl_cons]
    by_cases hm : neighbor W H cell d ∈ cur
    · simp only [visit_neighbor, hm, if_true]
      exact ih _ _ h
    · simp only [visit_neighbor, hm, if_false]
      apply ih
      intro k hk
      rcases (keys_increment _ _ _).mp hk with e | e
      · rw [e]; exact hm
      · exact h k e

/-! ## The loop of `update` over the live cells -/

/-- What `visible_alive_count` holds: the number of viewport cells of `next`, as an
`int`. -/
def Visible (W H : Int) (next : Grid) (v : Int) : Prop :=
  v = wrap_int (visible_cells W H next)

theorem visible_insert (W H : Int) (next : Grid) (v : Int) (c : Coord)
    (hc : c ∉ next) (h : Visible W H next v) :
    Visible W H (next.insert c) (if in_window W H c then incr v else v) := by
  unfold Visible visible_cells at h ⊢
  rw [insert_of_not_mem next c hc, List.countP_cons]
  by_cases hw : in_window W H c = true
  · rw [if_pos hw, if_pos hw, h, incr_wrap_int]
    congr 1
  · rw [if_neg hw, if_neg hw, h]
    simp

theorem alive_neighbors_le (W H : Int) (cur : Grid) (cell : Coord) :
    alive_neighbors W H cur cell ≤ 8 := by
  unfold alive_neighbors
  exact le_trans (List.countP_le_length _) (by decide)

theorem visit_cell_cond (W H : Int) (cur : Grid) (m : Counts) (cell : Coord) :
    ((offsets.foldl (visit_neighbor W H cur cell) (0, m)).1 = 2 ∨
      (offsets.foldl (visit_neighbor W H cur cell) (0, m)).1 = 3) ↔
    (alive_neighbors W H cur cell = 2 ∨ alive_neighbors W H cur cell = 3) := by
  rw [inner_fst W H cur cell offsets 0 m 0 (by decide)]
  have h8 := alive_neighbors_le W H cur cell
  unfold alive_neighbors at h8 ⊢
  rw [wrap_int_of_range _ (by omega) (by omega)]
  omega

theorem visit_cell_pos (W H : Int) (cur : Grid) (st : Tally) (cell : Coord)
    (h : alive_neighbors W H cur cell = 2 ∨ alive_neighbors W H cur cell = 3) :
    visit_cell W H cur st cell =
      { next := st.next.insert cell
        candidate_counts :=
          (offsets.foldl (visit_neighbor W H cur cell) (0, st.candidate_counts)).2
        visible_alive_count :=
          if in_window W H cell then incr st.visible_alive_count
          else st.visible_alive_count } := by
  have h' := (visit_cell_cond W H cur st.candidate_counts cell).mpr h
  unfold visit_cell
  exact if_pos h'

theorem visit_cell_neg (W H : Int) (cur : Grid) (st : Tally) (cell : Coord)
    (h : ¬ (alive_neighbors W H cur cell = 2 ∨ alive_neighbors W H cur cell = 3)) :
    visit_cell W H cur st cell =
      { next := st.next
        candidate_counts :=
          (offsets.foldl (visit_neighbor W H cur cell) (0, st.candidate_counts)).2
        visible_alive_count := st.visible_alive_count } := by
  have h' := mt (visit_cell_cond W H cur st.candidate_counts cell).mp h
  unfold visit_cell
  exact if_neg h'

theorem visit_cell_next (W H : Int) (cur : Grid) (st : Tally) (cell c : Coord) :
    c ∈ (visit_cell W H cur st cell).next ↔
      c ∈ st.next ∨ (c = cell ∧
        (alive_neighbors W H cur cell = 2 ∨ alive_neighbors W H cur cell = 3)) := by
  by_cases h : alive_neighbors W H cur cell = 2 ∨ alive_neighbors W H cur cell = 3
  · rw [visit_cell_pos _ _ _ _ _ h]
    simp only [mem_insert_iff]
    tauto
  · rw [visit_cell_neg _ _ _ _ _ h]
    tauto

theorem visit_cell_counts (W H : Int) (cur : Grid) (st : Tally) (cell : Coord) :
    (visit_cell W H cur st cell).candidate_counts =
      (offsets.foldl (visit_neighbor W H cur cell) (0, st.candidate_counts)).2 := by
  by_cases h : alive_neighbors W H cur cell = 2 ∨ alive_neighbors W H cur cell = 3
  · rw [visit_cell_pos _ _ _ _ _ h]
  · rw [visit_cell_neg _ _ _ _ _ h]

theorem visit_cell_nodup (W H : Int) (cur : Grid) (st : Tally) (cell : Coord)
    (h : st.next.Nodup) : (visit_cell W H cur st cell).next.Nodup := by
  by_cases hc : alive_neighbors W H cur cell = 2 ∨ alive_neighbors W H cur cell = 3
  · rw [visit_cell_pos _ _ _ _ _ hc]
    exact nodup_insert _ _ h
  · rw [visit_cell_neg _ _ _ _ _ hc]
    exact h

theorem visit_cell_visible (W H : Int) (cur : Grid) (st : Tally) (cell : Coord)
    (hnew : cell ∉ st.next) (h : Visible W H st.next st.visible_alive_count) :
    Visible W H (visit_cell W H cur st cell).next
      (visit_cell W H cur st cell).visible_alive_count := by
  by_cases hc : alive_neighbors W H cur cell = 2 ∨ alive_neighbors W H cur cell = 3
  · rw [visit_cell_pos _ _ _ _ _ hc]
    exact visible_insert _ _ _ _ _ hnew h
  · rw [visit_cell_neg _ _ _ _ _ hc]
    exact h

theorem outer_next (W H : Int) (cur : Grid) (cs : List Coord) (st : Tally) (c : Coord) :
    c ∈ (cs.foldl (visit_cell W H cur) st).next ↔
      c ∈ st.next ∨ (c ∈ cs ∧
        (alive_neighbors W H cur c = 2 ∨ alive_neighbors W H cur c = 3)) := by
  induction cs generalizing st with
  | nil => simp
  | cons cell rest ih =>
    simp only [List.foldl_cons, ih, visit_cell_next, List.mem_cons]
    constructor
    · rintro ((h | ⟨rfl, h⟩) | ⟨h1, h2⟩)
      · exact Or.inl h
      · exact Or.inr ⟨Or.inl rfl, h⟩
      · exact Or.inr ⟨Or.inr h1, h2⟩
    · rintro (h | ⟨rfl | h1, h2⟩)
      · exact Or.inl (Or.inl h)
      · exact Or.inl (Or.inr ⟨rfl, h2⟩)
      · exact Or.inr ⟨h1, h2⟩

theorem outer_count (W H : Int) (cur : Grid) (cs : List Coord) (st : Tally) (k : Coord)
    (b : Int) (hb : count_of st.candidate_counts k = wrap_int b) :
    count_of (cs.foldl (visit_cell W H cur) st).candidate_counts k =
      wrap_int (b + (if k ∈ cur then 0 else ((tally W H cs k : Nat) : Int))) := by
  induction cs generalizing st b with
  | nil => simpa [tally] using hb
  | cons cell rest ih =>
    simp only [List.foldl_cons]
    rw [ih _ _ (by rw [visit_cell_counts]; exact inner_count W H cur cell offsets 0 _ k b hb)]
    congr 1
    by_cases hk : k ∈ cur
    · simp [hk]
    · simp only [hk, if_false, tally, List.map_cons, List.sum_cons]
      push_cast
      omega

theorem outer_ok (W H : Int) (cur : Grid) (cs : List Coord) (st : Tally)
    (h : CountsOk st.candidate_counts) :
    CountsOk (cs.foldl (visit_cell W H cur) st).candidate_counts := by
  induction cs generalizing st with
  | nil => simpa using h
  | cons cell rest ih =>
    simp only [List.foldl_cons]
    apply ih
    rw [visit_cell_counts]
    exact inner_ok _ _ _ _ _ _ _ h

theorem outer_dead (W H : Int) (cur : Grid) (cs : List Coord) (st : Tally)
    (h : ∀ k ∈ st.candidate_counts.map Prod.fst, k ∉ cur) :
    ∀ k ∈ (cs.foldl (visit_cell W H cur) st).candidate_counts.map Prod.fst, k ∉ cur := by
  induction cs generalizing st with
  | nil => simpa using h
  | cons cell rest ih =>
    simp only [List.foldl_cons]
    apply ih
    rw [visit_cell_counts]
    exact inner_dead _ _ _ _ _ _ _ h

theorem outer_nodup (W H : Int) (cur : Grid) (cs : List Coord) (st : Tally)
    (h : st.next.Nodup) : (cs.foldl (visit_cell W H cur) st).next.Nodup := by
  induction cs generalizing st with
  | nil => simpa using h
  | cons cell rest ih =>
    simp only [List.foldl_cons]
    exact ih _ (visit_cell_nodup _ _ _ _ _ h)

theorem outer_visible (W H : Int) (cur : Grid) (cs : List Coord) (st : Tally)
    (hnd : cs.Nodup) (hnew : ∀ x ∈ st.next, x ∉ cs)
    (h : Visible W H st.next st.visible_alive_count) :
    Visible W H (cs.foldl (visit_cell W H cur) st).next
      (cs.foldl (visit_cell W H cur) st).visible_alive_count := by
  induction cs generalizing st with
  | nil => simpa using h
  | cons cell rest ih =>
    have hnd' := List.nodup_cons.mp hnd
    simp only [List.foldl_cons]
    apply ih _ hnd'.2
    · intro x hx hr
      rcases (visit_cell_next W H cur st cell x).mp hx with h1 | ⟨rfl, -⟩
      · exact hnew x h1 (List.mem_cons_of_mem _ hr)
      · exact hnd'.1 hr
    · exact visit_cell_visible _ _ _ _ _
        (fun hm => hnew cell hm (List.mem_cons_self _ _)) h

/-! ## The loop of `update` over `candidate_counts` -/

theorem births_mem (W H : Int) (m : Counts) (acc : Grid × Int) (c : Coord) :
    c ∈ (m.foldl (visit_candidate W H) acc).1 ↔ c ∈ acc.1 ∨ (c, 3) ∈ m := by
  induction m generalizing acc with
  | nil => simp
  | cons e rest ih =>
    obtain ⟨k, n⟩ := e
    simp only [List.foldl_cons, ih, List.mem_cons, Prod.mk.injEq]
    by_cases hn : n = 3
    · subst hn
      simp only [visit_candidate, if_true, mem_insert_iff]
      tauto
    · simp only [visit_candidate, hn, if_false]
      constructor
      · rintro (h | h)
        · exact Or.inl h
        · exact Or.inr (Or.inr h)
      · rintro (h | ⟨-, h⟩ | h)
        · exact Or.inl h
        · exact absurd h.symm hn
        · exact Or.inr h

theorem births_nodup (W H : Int) (m : Counts) (acc : Grid × Int) (h : acc.1.Nodup) :
    (m.foldl (visit_candidate W H) acc).1.Nodup := by
  induction m generalizing acc with
  | nil => simpa using h
  | cons e rest ih =>
    simp only [List.foldl_cons]
    apply ih
    unfold visit_candidate
    by_cases he : e.2 = 3
    · rw [if_pos he]
      exact nodup_insert _ _ h
    · rw [if_neg he]
      exact h

theorem births_visible (W H : Int) (m : Counts) (acc : Grid × Int)
    (hnd : CountsOk m) (hnew : ∀ x ∈ acc.1, x ∉ m.map Prod.fst)
    (h : Visible W H acc.1 acc.2) :
    Visible W H (m.foldl (visit_candidate W H) acc).1 (m.foldl (visit_candidate W H) acc).2 := by
  unfold CountsOk at hnd
  induction m generalizing acc with
  | nil => simpa using h
  | cons e rest ih =>
    have hnd' := List.nodup_cons.mp hnd
    have he1 : e.1 ∉ acc.1 := fun hm => hnew e.1 hm (List.mem_cons_self _ _)
    simp only [List.foldl_cons]
    apply ih _ hnd'.2
    · intro x hx hr
      unfold visit_candidate at hx
      by_cases he : e.2 = 3
      · rw [if_pos he] at hx
        rcases (mem_insert_iff _ _ _).mp hx with rfl | h1
        · exact hnd'.1 hr
        · exact hnew x h1 (List.mem_cons_of_mem _ hr)
      · rw [if_neg he] at hx
        exact hnew x hx (List.mem_cons_of_mem _ hr)
    · unfold visit_candidate
      by_cases he : e.2 = 3
      · rw [if_pos he]
        exact visible_insert _ _ _ _ _ he1 h
      · rw [if_neg he]
        exact h

/-! ## What `update` computes, in terms of the counts the code makes -/

theorem mem_update_code (W H : Int) (G : Grid) (c : Coord) :
    c ∈ (update W H G).1 ↔
      (c ∈ G ∧ (alive_neighbors W H G c = 2 ∨ alive_neighbors W H G c = 3)) ∨
      (c ∉ G ∧ wrap_int (tally W H G c) = 3) := by
  unfold update
  simp only [births_mem, outer_next, List.not_mem_nil, false_or]
  have hok : CountsOk (G.foldl (visit_cell W H G)
      { next := [], candidate_counts := [], visible_alive_count := 0 }).candidate_counts :=
    outer_ok _ _ _ _ _ (by simp [CountsOk])
  rw [mem_counts_iff _ hok _ _ (by decide),
    outer_count W H G G
      { next := [], candidate_counts := [], visible_alive_count := 0 } c 0
      wrap_int_zero.symm]
  by_cases hc : c ∈ G
  · simp [hc, wrap_int_zero]
  · simp [hc]

theorem update_nodup (W H : Int) (G : Grid) : (update W H G).1.Nodup := by
  unfold update
  exact births_nodup _ _ _ _ (outer_nodup _ _ _ _ _ List.nodup_nil)

/-- The flag `update` returns: the `int` count of the viewport cells of the successor is
positive. -/
theorem update_visible (W H : Int) (G : Grid) (hnd : G.Nodup) :
    (update W H G).2 = decide (0 < wrap_int (visible_cells W H (update W H G).1)) := by
  have hdead := outer_dead W H G G
    { next := [], candidate_counts := [], visible_alive_count := 0 } (by simp)
  have hok : CountsOk (G.foldl (visit_cell W H G)
      { next := [], candidate_counts := [], visible_alive_count := 0 }).candidate_counts :=
    outer_ok _ _ _ _ _ (by simp [CountsOk])
  have h1 := outer_visible W H G G
    { next := [], candidate_counts := [], visible_alive_count := 0 } hnd (by simp)
    (by simp [Visible, visible_cells, wrap_int_zero])
  have h2 := births_visible W H _ (_, _) hok
    (by
      intro x hx hk
      have hxG : x ∈ G := by
        rcases (outer_next W H G G _ x).mp hx with h | ⟨h, -⟩
        · exact absurd h (List.not_mem_nil x)
        · exact h
      exact hdead x hk hxG) h1
  unfold Visible at h2
  unfold update
  simp only [gt_iff_lt]
  rw [h2]

/-! ## Wrapping: the code's `(v + M) % M` against the mathematical remainder -/

theorem wrap_cases (W x dx : Int) (hx0 : 0 ≤ x) (hxW : x < W) (hd0 : -1 ≤ dx) (hd1 : dx ≤ 1) :
    (x + dx < 0 ∧ (x + dx) % W = x + dx + W) ∨
    (0 ≤ x + dx ∧ x + dx < W ∧ (x + dx) % W = x + dx) ∨
    (W ≤ x + dx ∧ (x + dx) % W = x + dx - W) := by
  by_cases h1 : x + dx < 0
  · left
    refine ⟨h1, ?_⟩
    rw [← Int.add_emod_self]
    exact Int.emod_eq_of_lt (by omega) (by omega)
  · by_cases h2 : x + dx < W
    · right; left
      exact ⟨by omega, h2, Int.emod_eq_of_lt (by omega) h2⟩
    · right; right
      refine ⟨by omega, ?_⟩
      have h3 : (x + dx - W + W) % W = x + dx - W := by
        rw [Int.add_emod_self]
        exact Int.emod_eq_of_lt (by omega) (by omega)
      have h4 : x + dx - W + W = x + dx := by omega
      rw [h4] at h3
      exact h3

/-- For a cell of a viewport of fewer than `2^30` columns the sum `x + dx + window_width`
stays within the 32-bit `int` range. -/
theorem neighbor_sum_fits_int (W x dx : Int) (hW : W < 1073741824)
    (hx0 : 0 ≤ x) (hxW : x < W) (hd0 : -1 ≤ dx) (hd1 : dx ≤ 1) :
    0 ≤ x + dx + W ∧ x + dx + W < 2147483648 := by
  omega

/-- A grid within a viewport of at most `2^30` columns and rows forms no harmful sum. -/
theorem fits_of_lt (W H : Int) (G : Grid) (hW : W ≤ 1073741824) (hH : H ≤ 1073741824)
    (hG : InViewport W H G) : Fits W H G := by
  intro c hc
  have := hG c hc
  omega

theorem fits_congr (W H : Int) (G P : Grid) (h : ∀ x, x ∈ G ↔ x ∈ P) (hP : Fits W H P) :
    Fits W H G :=
  fun c hc => hP c ((h c).mp hc)

theorem offsets_bound (d : Int × Int) (hd : d ∈ offsets) :
    -1 ≤ d.1 ∧ d.1 ≤ 1 ∧ -1 ≤ d.2 ∧ d.2 ≤ 1 := by
  rw [offsets_eq] at hd
  simp only [List.mem_cons, List.mem_singleton, List.not_mem_nil, or_false] at hd
  rcases hd with h | h | h | h | h | h | h | h <;> subst h <;> decide

/-- One coordinate of the neighbour `update` computes is the mathematical remainder. -/
theorem coord_eq_emod (M x dx : Int) (hM : 1 ≤ M) (hx0 : 0 ≤ x) (hxM : x < M)
    (hfit : x + M < 2147483647 ∨ M = 1073741824) (hd0 : -1 ≤ dx) (hd1 : dx ≤ 1) :
    Int.tmod (wrap_int (wrap_int (x + dx) + M)) M = (x + dx) % M := by
  by_cases h : x + dx + M < 2147483648
  · rw [wrap_int_of_range (x + dx) (by omega) (by omega),
      wrap_int_of_range (x + dx + M) (by omega) (by omega),
      Int.tmod_eq_emod (by omega) (by omega), Int.add_emod_self]
  · obtain rfl : M = 1073741824 := by omega
    obtain rfl : x = 1073741823 := by omega
    obtain rfl : dx = 1 := by omega
    decide

theorem neighbor_eq_wrapped (W H : Int) (c : Coord) (d : Int × Int)
    (hW : 1 ≤ W) (hH : 1 ≤ H)
    (hc : 0 ≤ c.1 ∧ c.1 < W ∧ 0 ≤ c.2 ∧ c.2 < H)
    (hfit : (c.1 + W < 2147483647 ∨ W = 1073741824) ∧
      (c.2 + H < 2147483647 ∨ H = 1073741824)) (hd : d ∈ offsets) :
    neighbor W H c d = wrapped W H c d := by
  obtain ⟨h1, h2, h3, h4⟩ := offsets_bound d hd
  unfold neighbor wrapped
  rw [coord_eq_emod W c.1 d.1 hW hc.1 hc.2.1 hfit.1 h1 h2,
    coord_eq_emod H c.2 d.2 hH hc.2.2.1 hc.2.2.2 hfit.2 h3 h4]

theorem wrapped_in_viewport (W H : Int) (c : Coord) (d : Int × Int)
    (hW : 1 ≤ W) (hH : 1 ≤ H) :
    0 ≤ (wrapped W H c d).1 ∧ (wrapped W H c d).1 < W ∧
    0 ≤ (wrapped W H c d).2 ∧ (wrapped W H c d).2 < H := by
  unfold wrapped
  exact ⟨Int.emod_nonneg _ (by omega), Int.emod_lt_of_pos _ (by omega),
    Int.emod_nonneg _ (by omega), Int.emod_lt_of_pos _ (by omega)⟩

theorem alive_eq_live (W H : Int) (G : Grid) (c : Coord) (hW : 1 ≤ W) (hH : 1 ≤ H)
    (hc : 0 ≤ c.1 ∧ c.1 < W ∧ 0 ≤ c.2 ∧ c.2 < H)
    (hfit : (c.1 + W < 2147483647 ∨ W = 1073741824) ∧
      (c.2 + H < 2147483647 ∨ H = 1073741824)) :
    alive_neighbors W H G c = live_neighbours W H G c := by
  unfold alive_neighbors live_neighbours
  apply List.countP_congr
  intro d hd
  rw [neighbor_eq_wrapped W H c d hW hH hc hfit hd]

theorem live_neighbours_le (W H : Int) (G : Grid) (c : Coord) :
    live_neighbours W H G c ≤ 8 := by
  unfold live_neighbours
  exact le_trans (List.countP_le_length _) (by decide)

/-- The opposite offset. -/
def opposite (d : Int × Int) : Int × Int := (-d.1, -d.2)

theorem offsets_opposite : offsets.map opposite = offsets.reverse := by
  decide

theorem wrapped_symm (W H : Int) (c k : Coord) (d : Int × Int)
    (hc : 0 ≤ c.1 ∧ c.1 < W ∧ 0 ≤ c.2 ∧ c.2 < H)
    (hk : 0 ≤ k.1 ∧ k.1 < W ∧ 0 ≤ k.2 ∧ k.2 < H) (hd : d ∈ offsets) :
    wrapped W H c d = k ↔ wrapped W H k (opposite d) = c := by
  obtain ⟨h1, h2, h3, h4⟩ := offsets_bound d hd
  obtain ⟨c1, c2⟩ := c
  obtain ⟨k1, k2⟩ := k
  obtain ⟨d1, d2⟩ := d
  simp only [wrapped, opposite, Prod.mk.injEq] at *
  have a1 := wrap_cases W c1 d1 hc.1 hc.2.1 h1 h2
  have a2 := wrap_cases H c2 d2 hc.2.2.1 hc.2.2.2 h3 h4
  have b1 := wrap_cases W k1 (-d1) hk.1 hk.2.1 (by omega) (by omega)
  have b2 := wrap_cases H k2 (-d2) hk.2.2.1 hk.2.2.2 (by omega) (by omega)
  omega

/-- Counting, for each element of a duplicate-free list, the arguments `f` sends to it
counts the arguments `f` sends into the list. -/
theorem sum_countP_eq {α : Type} (f : α → Coord) (ds : List α) (G : Grid) (h : G.Nodup) :
    (G.map fun c => ds.countP fun d => decide (f d = c)).sum =
      ds.countP fun d => decide (f d ∈ G) := by
  induction G with
  | nil => simp
  | cons c rest ih =>
    have hnd := List.nodup_cons.mp h
    simp only [List.map_cons, List.sum_cons, ih hnd.2, List.mem_cons]
    clear ih
    induction ds with
    | nil => simp
    | cons d ds ihd =>
      simp only [List.countP_cons]
      by_cases h1 : f d = c
      · have h2 : f d ∉ rest := fun hm => hnd.1 (h1 ▸ hm)
        simp only [h1, true_or, decide_True, if_true] at ihd ⊢
        have h3 : decide (c ∈ rest) = false := by
          simpa using hnd.1
        simp only [h3]
        simp only [Bool.false_eq_true, if_false]
        omega
      · by_cases h2 : f d ∈ rest
        · simp only [h1, h2, false_or, decide_True, decide_False, if_true] at ihd ⊢
          simp only [Bool.false_eq_true, if_false]
          omega
        · simp only [h1, h2, false_or, decide_False] at ihd ⊢
          simp only [Bool.false_eq_true, if_false]
          omega

theorem tally_eq_live (W H : Int) (G : Grid) (k : Coord) (hW : 1 ≤ W) (hH : 1 ≤ H)
    (hnd : G.Nodup) (hG : InViewport W H G) (hfit : Fits W H G)
    (hk : 0 ≤ k.1 ∧ k.1 < W ∧ 0 ≤ k.2 ∧ k.2 < H) :
    tally W H G k = live_neighbours W H G k := by
  unfold tally live_neighbours
  have h1 : (G.map fun c => offsets.countP fun d => decide (neighbor W H c d = k)) =
      (G.map fun c => offsets.countP fun d => decide (wrapped W H k (opposite d) = c)) := by
    apply List.map_congr_left
    intro c hc
    apply List.countP_congr
    intro d hd
    rw [neighbor_eq_wrapped W H c d hW hH (hG c hc) (hfit c hc) hd]
    simp only [decide_eq_true_eq]
    exact wrapped_symm W H c k d (hG c hc) hk hd
  rw [h1, sum_countP_eq (fun d => wrapped W H k (opposite d)) offsets G hnd]
  have h2 : (offsets.countP fun d => decide (wrapped W H k (opposite d) ∈ G)) =
      (offsets.map opposite).countP fun d => decide (wrapped W H k d ∈ G) := by
    rw [List.countP_map]
    rfl
  rw [h2, offsets_opposite, List.countP_reverse]

theorem tally_outside (W H : Int) (G : Grid) (k : Coord) (hW : 1 ≤ W) (hH : 1 ≤ H)
    (hG : InViewport W H G) (hfit : Fits W H G)
    (hk : ¬ (0 ≤ k.1 ∧ k.1 < W ∧ 0 ≤ k.2 ∧ k.2 < H)) :
    tally W H G k = 0 := by
  unfold tally
  apply List.sum_eq_zero
  intro n hn
  obtain ⟨c, hc, rfl⟩ := List.mem_map.mp hn
  rw [List.countP_eq_zero]
  intro d hd
  rw [neighbor_eq_wrapped W H c d hW hH (hG c hc) (hfit c hc) hd]
  simp only [decide_eq_true_eq]
  intro e
  exact hk (e ▸ wrapped_in_viewport W H c d hW hH)

/-- The successor of a well-formed grid, in the words of the specification: a live
cell survives with 2 or 3 live wrapped neighbours, a dead cell of the viewport is
born with exactly 3. -/
theorem mem_update_iff (W H : Int) (G : Grid) (c : Coord) (hW : 1 ≤ W) (hH : 1 ≤ H)
    (hnd : G.Nodup) (hG : InViewport W H G) (hfit : Fits W H G) :
    c ∈ (update W H G).1 ↔
      (c ∈ G ∧ (live_neighbours W H G c = 2 ∨ live_neighbours W H G c = 3)) ∨
      (c ∉ G ∧ (0 ≤ c.1 ∧ c.1 < W ∧ 0 ≤ c.2 ∧ c.2 < H) ∧ live_neighbours W H G c = 3) := by
  rw [mem_update_code]
  by_cases hc : c ∈ G
  · rw [alive_eq_live W H G c hW hH (hG c hc) (hfit c hc)]
    simp [hc]
  · by_cases hk : 0 ≤ c.1 ∧ c.1 < W ∧ 0 ≤ c.2 ∧ c.2 < H
    · rw [tally_eq_live W H G c hW hH hnd hG hfit hk]
      have h8 := live_neighbours_le W H G c
      rw [wrap_int_of_range _ (by omega) (by omega)]
      simp only [hc, false_and, false_or, not_false_eq_true, true_and, hk]
      omega
    · rw [tally_outside W H G c hW hH hG hfit hk]
      simp [hc, hk, wrap_int_zero]

theorem update_in_viewport (W H : Int) (G : Grid) (hW : 1 ≤ W) (hH : 1 ≤ H)
    (hG : InViewport W H G) (hfit : Fits W H G) : InViewport W H (update W H G).1 := by
  intro c hc
  rw [mem_update_code] at hc
  rcases hc with ⟨hc, -⟩ | ⟨-, ht⟩
  · exact hG c hc
  · by_contra hk
    rw [tally_outside W H G c hW hH hG hfit hk] at ht
    exact absurd ht (by decide)

theorem in_window_iff (W H : Int) (c : Coord) :
    in_window W H c = true ↔ (0 ≤ c.1 ∧ c.1 < W ∧ 0 ≤ c.2 ∧ c.2 < H) := by
  unfold in_window
  simp

theorem visible_cells_eq_length (W H : Int) (G : Grid) (hG : InViewport W H G) :
    visible_cells W H G = G.length := by
  unfold visible_cells
  rw [List.countP_eq_length]
  intro c hc
  exact (in_window_iff W H c).mpr (hG c hc)

/-- The flag of `update` for a well-formed grid: the size of the successor, as an `int`,
is positive. -/
theorem update_flag_eq (W H : Int) (G : Grid) (hW : 1 ≤ W) (hH : 1 ≤ H)
    (hnd : G.Nodup) (hG : InViewport W H G) (hfit : Fits W H G) :
    (update W H G).2 = decide (0 < wrap_int ((update W H G).1.length)) := by
  rw [update_visible W H G hnd,
    visible_cells_eq_length W H _ (update_in_viewport W H G hW hH hG hfit)]

theorem update_flag_iff (W H : Int) (G : Grid) (hW : 1 ≤ W) (hH : 1 ≤ H)
    (hnd : G.Nodup) (hG : InViewport W H G) (hfit : Fits W H G)
    (hsize : (update W H G).1.length < 2147483648) :
    (update W H G).2 = true ↔ (update W H G).1 ≠ [] := by
  rw [update_flag_eq W H G hW hH hnd hG hfit, wrap_int_of_range _ (by omega) (by omega)]
  simp only [decide_eq_true_eq, Nat.cast_pos, List.length_pos]

theorem length_eq_of_sameCells (A B : Grid) (hA : A.Nodup) (hB : B.Nodup)
    (h : SameCells A B) : A.length = B.length :=
  ((List.perm_ext_iff_of_nodup hA hB).mpr h).length_eq

/-! ## The seeder -/

theorem foldl_invariant {α β : Type} (P : β → Prop) (f : β → α → β) (l : List α) (b : β)
    (hb : P b) (hstep : ∀ acc x, x ∈ l → P acc → P (f acc x)) : P (l.foldl f b) := by
  induction l generalizing b with
  | nil => simpa using hb
  | cons a rest ih =>
    simp only [List.foldl_cons]
    apply ih
    · exact hstep b a (List.mem_cons_self _ _) hb
    · intro acc x hx hacc
      exact hstep acc x (List.mem_cons_of_mem _ hx) hacc

theorem insert_ne_nil (g : Grid) (c : Coord) : g.insert c ≠ [] := by
  unfold Grid.insert
  split_ifs with h
  · exact List.ne_nil_of_mem h
  · exact List.cons_ne_nil _ _

/-- While `next` is empty `visible_alive_count` is 0: an empty successor comes with the
flag `false`, whatever the grid holds. -/
theorem update_flag_of_nil (W H : Int) (G : Grid) (hnil : (update W H G).1 = []) :
    (update W H G).2 = false := by
  have h1 : (G.foldl (visit_cell W H G)
        { next := [], candidate_counts := [], visible_alive_count := 0 }).next = [] →
      (G.foldl (visit_cell W H G)
        { next := [], candidate_counts := [], visible_alive_count := 0 }).visible_alive_count
        = 0 := by
    refine foldl_invariant (fun st : Tally => st.next = [] → st.visible_alive_count = 0)
      _ _ _ (fun _ => rfl) ?_
    intro st cell _ hst
    by_cases h : alive_neighbors W H G cell = 2 ∨ alive_neighbors W H G cell = 3
    · rw [visit_cell_pos _ _ _ _ _ h]
      intro he
      exact absurd he (insert_ne_nil _ _)
    · rw [visit_cell_neg _ _ _ _ _ h]
      exact hst
  have h2 : ∀ (m : Counts) (acc : Grid × Int), (acc.1 = [] → acc.2 = 0) →
      (m.foldl (visit_candidate W H) acc).1 = [] →
      (m.foldl (visit_candidate W H) acc).2 = 0 := by
    intro m acc hacc
    refine foldl_invariant (fun acc : Grid × Int => acc.1 = [] → acc.2 = 0)
      _ _ _ hacc ?_
    intro acc e _ hacc
    unfold visit_candidate
    by_cases h3 : e.2 = 3
    · rw [if_pos h3]
      intro he
      exact absurd he (insert_ne_nil _ _)
    · rw [if_neg h3]
      exact hacc
  unfold update at hnil ⊢
  simp only at hnil ⊢
  rw [h2 _ _ h1 hnil]
  decide

theorem seed_initial_in_viewport (grid : Grid) (W H p : Int) (chance : Nat → Int)
    (hG : InViewport W H grid) : InViewport W H (seed_initial grid W H p chance).1 := by
  unfold seed_initial
  apply foldl_invariant (fun acc : Grid × Heatmap => InViewport W H acc.1)
  · exact hG
  · intro acc y hy hacc
    apply foldl_invariant (fun acc : Grid × Heatmap => InViewport W H acc.1)
    · exact hacc
    · intro acc' x hx hacc'
      by_cases hd : chance (y * W.toNat + x) < p
      · simp only [hd, if_true]
        intro c hc
        rcases (mem_insert_iff _ _ _).mp hc with e | hc
        · subst e
          have hx' := List.mem_range.mp hx
          have hy' := List.mem_range.mp hy
          simp only
          omega
        · exact hacc' c hc
      · simp only [hd, if_false]
        exact hacc'

/-! ## Deciding a step on a fixed torus -/

/-- Conway's rule for the cell `c` of the torus, from the wrapped neighbour count. -/
def rule (W H : Int) (P : Grid) (c : Coord) : Bool :=
  if c ∈ P then live_neighbours W H P c == 2 || live_neighbours W H P c == 3
  else live_neighbours W H P c == 3

/-- All cells of the viewport `[0,W) × [0,H)`, row by row. -/
def cells (W H : Int) : List Coord :=
  (List.range H.toNat).flatMap fun (y : Nat) =>
    (List.range W.toNat).map fun (x : Nat) => ((x : Int), (y : Int))

/-- On the `W × H` torus the rule turns the cell set `P` into the cell set `Q`. -/
def steps_to (W H : Int) (P Q : Grid) : Bool :=
  (cells W H).all fun c => rule W H P c == decide (c ∈ Q)

theorem mem_cells (W H : Int) (c : Coord) :
    c ∈ cells W H ↔ (0 ≤ c.1 ∧ c.1 < W ∧ 0 ≤ c.2 ∧ c.2 < H) := by
  obtain ⟨x, y⟩ := c
  unfold cells
  simp only [List.mem_flatMap, List.mem_map, List.mem_range, Prod.mk.injEq]
  constructor
  · rintro ⟨j, hj, i, hi, rfl, rfl⟩
    omega
  · rintro ⟨h1, h2, h3, h4⟩
    exact ⟨y.toNat, by omega, x.toNat, by omega, by omega, by omega⟩

theorem live_neighbours_congr (W H : Int) (G P : Grid) (c : Coord)
    (h : ∀ x, x ∈ G ↔ x ∈ P) :
    live_neighbours W H G c = live_neighbours W H P c := by
  unfold live_neighbours
  apply List.countP_congr
  intro d _
  simp only [decide_eq_true_eq]
  exact h _

theorem mem_update_rule (W H : Int) (G P : Grid) (c : Coord) (hW : 1 ≤ W) (hH : 1 ≤ H)
    (hnd : G.Nodup) (hGP : ∀ x, x ∈ G ↔ x ∈ P) (hP : InViewport W H P)
    (hfit : Fits W H P) (hc : 0 ≤ c.1 ∧ c.1 < W ∧ 0 ≤ c.2 ∧ c.2 < H) :
    c ∈ (update W H G).1 ↔ rule W H P c = true := by
  have hG : InViewport W H G := fun x hx => hP x ((hGP x).mp hx)
  rw [mem_update_iff W H G c hW hH hnd hG (fits_congr W H G P hGP hfit),
    live_neighbours_congr W H G P c hGP, hGP c]
  unfold rule
  by_cases hm : c ∈ P
  · simp [hm]
  · simp [hm, hc]

theorem not_mem_update_outside (W H : Int) (G : Grid) (c : Coord) (hW : 1 ≤ W) (hH : 1 ≤ H)
    (hG : InViewport W H G) (hfit : Fits W H G)
    (hc : ¬ (0 ≤ c.1 ∧ c.1 < W ∧ 0 ≤ c.2 ∧ c.2 < H)) :
    c ∉ (update W H G).1 :=
  fun hm => hc (update_in_viewport W H G hW hH hG hfit c hm)

/-! ## Large tori: squashing the empty middle of the viewport

A pattern that occupies the columns `[0,a]` and the last `b` columns (and likewise the
rows) behaves on every torus of width at least `a + b + 4` as on the torus of width
`a + b + 4`: the columns strictly between `a + 1` and `W - b - 1` are empty and have
empty neighbours, and can be merged into one. -/

/-- The width a viewport of width `W` is squashed to. -/
def squash_dim (a b W : Int) : Int :=
  if W < a + b + 4 then W else a + b + 4

/-- The column of the squashed torus a column `x` of the wide torus is sent to. -/
def squash (a b W x : Int) : Int :=
  if W < a + b + 4 then x
  else if x ≤ a + 1 then x
  else if W - b - 1 ≤ x then x - W + (a + b + 4)
  else a + 2

theorem squash_cases (a b W x : Int) :
    (W < a + b + 4 ∧ squash_dim a b W = W ∧ squash a b W x = x) ∨
    (a + b + 4 ≤ W ∧ squash_dim a b W = a + b + 4 ∧
      ((x ≤ a + 1 ∧ squash a b W x = x) ∨
       (a + 1 < x ∧ W - b - 1 ≤ x ∧ squash a b W x = x - W + (a + b + 4)) ∨
       (a + 1 < x ∧ x < W - b - 1 ∧ squash a b W x = a + 2))) := by
  unfold squash_dim squash
  split_ifs <;> omega

/-- Wrapping commutes with squashing, except between empty columns. -/
theorem squash_wrap (a b W x dx : Int) (ha : 0 ≤ a) (hb : 0 ≤ b)
    (hx0 : 0 ≤ x) (hxW : x < W) (hd0 : -1 ≤ dx) (hd1 : dx ≤ 1) :
    squash a b W ((x + dx) % W) = (squash a b W x + dx) % squash_dim a b W ∨
    ((a < (x + dx) % W ∧ (x + dx) % W < W - b) ∧
     (a < (squash a b W x + dx) % squash_dim a b W ∧
      (squash a b W x + dx) % squash_dim a b W < squash_dim a b W - b)) := by
  have c1 := squash_cases a b W x
  have c2 := squash_cases a b W ((x + dx) % W)
  have w1 := wrap_cases W x dx hx0 hxW hd0 hd1
  have w2 := wrap_cases (squash_dim a b W) (squash a b W x) dx (by omega) (by omega) hd0 hd1
  omega

theorem squash_range (a b W x : Int) (ha : 0 ≤ a) (hb : 0 ≤ b) (hx0 : 0 ≤ x) (hxW : x < W) :
    0 ≤ squash a b W x ∧ squash a b W x < squash_dim a b W := by
  have c1 := squash_cases a b W x
  omega

/-- A family of patterns, one for each viewport size from `lo` on, that stays within
the first `a + 1` and the last `b` columns and rows and looks the same on the
squashed torus. -/
structure Localised (a b lo : Int) (pat : Int → Int → Grid) : Prop where
  inside : ∀ W H, lo ≤ W → lo ≤ H → ∀ c ∈ pat W H,
    (0 ≤ c.1 ∧ c.1 < W ∧ 0 ≤ c.2 ∧ c.2 < H) ∧
    ¬ (a < c.1 ∧ c.1 < W - b) ∧ ¬ (a < c.2 ∧ c.2 < H - b)
  same : ∀ W H, lo ≤ W → lo ≤ H → ∀ c : Coord, 0 ≤ c.1 ∧ c.1 < W ∧ 0 ≤ c.2 ∧ c.2 < H →
    (c ∈ pat W H ↔
      (squash a b W c.1, squash a b H c.2) ∈ pat (squash_dim a b W) (squash_dim a b H))

theorem squash_dim_ge (a b lo W : Int) (hlo : lo ≤ a + b + 4) (hW : lo ≤ W) :
    lo ≤ squash_dim a b W := by
  have c1 := squash_cases a b W 0
  omega

theorem squash_dim_le (a b W : Int) : squash_dim a b W ≤ a + b + 4 := by
  have c1 := squash_cases a b W 0
  omega

theorem live_neighbours_squash (a b lo : Int) (pat : Int → Int → Grid)
    (hP : Localised a b lo pat) (ha : 0 ≤ a) (hb : 0 ≤ b) (hlo : lo ≤ a + b + 4)
    (W H : Int) (hW : lo ≤ W) (hH : lo ≤ H) (c : Coord)
    (hc : 0 ≤ c.1 ∧ c.1 < W ∧ 0 ≤ c.2 ∧ c.2 < H) :
    live_neighbours W H (pat W H) c =
      live_neighbours (squash_dim a b W) (squash_dim a b H)
        (pat (squash_dim a b W) (squash_dim a b H)) (squash a b W c.1, squash a b H c.2) := by
  unfold live_neighbours
  apply List.countP_congr
  intro d hd
  obtain ⟨h1, h2, h3, h4⟩ := offsets_bound d hd
  simp only [decide_eq_true_eq]
  have hW' := squash_dim_ge a b lo W hlo hW
  have hH' := squash_dim_ge a b lo H hlo hH
  have sx := squash_wrap a b W c.1 d.1 ha hb hc.1 hc.2.1 h1 h2
  have sy := squash_wrap a b H c.2 d.2 ha hb hc.2.2.1 hc.2.2.2 h3 h4
  have hr : 0 ≤ (c.1 + d.1) % W ∧ (c.1 + d.1) % W < W ∧
      0 ≤ (c.2 + d.2) % H ∧ (c.2 + d.2) % H < H :=
    ⟨Int.emod_nonneg _ (by omega), Int.emod_lt_of_pos _ (by omega),
      Int.emod_nonneg _ (by omega), Int.emod_lt_of_pos _ (by omega)⟩
  have hsame := hP.same W H hW hH ((c.1 + d.1) % W, (c.2 + d.2) % H) hr
  unfold wrapped
  by_cases hx : squash a b W ((c.1 + d.1) % W) = (squash a b W c.1 + d.1) % squash_dim a b W
  · by_cases hy : squash a b H ((c.2 + d.2) % H) = (squash a b H c.2 + d.2) % squash_dim a b H
    · simp only [hx, hy] at hsame
      exact hsame
    · have hy' := sy.resolve_left hy
      constructor
      · intro hm
        exact absurd hy'.1 (hP.inside W H hW hH _ hm).2.2
      · intro hm
        exact absurd hy'.2 (hP.inside _ _ hW' hH' _ hm).2.2
  · have hx' := sx.resolve_left hx
    constructor
    · intro hm
      exact absurd hx'.1 (hP.inside W H hW hH _ hm).2.1
    · intro hm
      exact absurd hx'.2 (hP.inside _ _ hW' hH' _ hm).2.1

theorem rule_squash (a b lo : Int) (pat : Int → Int → Grid)
    (hP : Localised a b lo pat) (ha : 0 ≤ a) (hb : 0 ≤ b) (hlo : lo ≤ a + b + 4)
    (W H : Int) (hW : lo ≤ W) (hH : lo ≤ H) (c : Coord)
    (hc : 0 ≤ c.1 ∧ c.1 < W ∧ 0 ≤ c.2 ∧ c.2 < H) :
    rule W H (pat W H) c =
      rule (squash_dim a b W) (squash_dim a b H)
        (pat (squash_dim a b W) (squash_dim a b H)) (squash a b W c.1, squash a b H c.2) := by
  unfold rule
  rw [live_neighbours_squash a b lo pat hP ha hb hlo W H hW hH c hc]
  by_cases hm : c ∈ pat W H
  · rw [if_pos hm, if_pos ((hP.same W H hW hH c hc).mp hm)]
  · rw [if_neg hm, if_neg (fun h => hm ((hP.same W H hW hH c hc).mpr h))]

/-- If the rule turns `pat` into `pat'` on every torus between `lo` and `a + b + 4`
wide and high, then `update` turns every grid with the cells of `pat` into a grid with
the cells of `pat'` on every torus at least `lo` wide and high on which the sums
formed for the cells of `pat` do not overflow. -/
theorem step_family (a b lo : Int) (pat pat' : Int → Int → Grid)
    (hP : Localised a b lo pat) (hP' : Localised a b lo pat')
    (ha : 0 ≤ a) (hb : 0 ≤ b) (hlo1 : 1 ≤ lo) (hlo : lo ≤ a + b + 4)
    (hcheck : ∀ W H, lo ≤ W → W ≤ a + b + 4 → lo ≤ H → H ≤ a + b + 4 →
      steps_to W H (pat W H) (pat' W H) = true)
    (W H : Int) (hW : lo ≤ W) (hH : lo ≤ H) (hfit : Fits W H (pat W H))
    (G : Grid) (hnd : G.Nodup)
    (hG : ∀ c, c ∈ G ↔ c ∈ pat W H) (c : Coord) :
    c ∈ (update W H G).1 ↔ c ∈ pat' W H := by
  have hPv : InViewport W H (pat W H) := fun x hx => (hP.inside W H hW hH x hx).1
  have hGv : InViewport W H G := fun x hx => hPv x ((hG x).mp hx)
  by_cases hc : 0 ≤ c.1 ∧ c.1 < W ∧ 0 ≤ c.2 ∧ c.2 < H
  · rw [mem_update_rule W H G (pat W H) c (by omega) (by omega) hnd hG hPv hfit hc,
      rule_squash a b lo pat hP ha hb hlo W H hW hH c hc, hP'.same W H hW hH c hc]
    have hchk := hcheck (squash_dim a b W) (squash_dim a b H)
      (squash_dim_ge a b lo W hlo hW) (squash_dim_le a b W)
      (squash_dim_ge a b lo H hlo hH) (squash_dim_le a b H)
    unfold steps_to at hchk
    rw [List.all_eq_true] at hchk
    have hs1 := squash_range a b W c.1 ha hb hc.1 hc.2.1
    have hs2 := squash_range a b H c.2 ha hb hc.2.2.1 hc.2.2.2
    have hmem : (squash a b W c.1, squash a b H c.2) ∈
        cells (squash_dim a b W) (squash_dim a b H) :=
      (mem_cells _ _ _).mpr ⟨hs1.1, hs1.2, hs2.1, hs2.2⟩
    have := hchk _ hmem
    simp only [beq_iff_eq] at this
    rw [this]
    simp
  · constructor
    · intro hm
      exact absurd hm (not_mem_update_outside W H G c (by omega) (by omega) hGv
        (fits_congr W H G (pat W H) hG hfit) hc)
    · intro hm
      exact absurd (hP'.inside W H hW hH c hm).1 hc

/-- A fixed pattern within `[0,a] × [0,a]` is localised on every viewport wider and
higher than `a`. -/
theorem localised_const (a lo : Int) (P : Grid) (hlo : a < lo)
    (hP : ∀ c ∈ P, 0 ≤ c.1 ∧ c.1 ≤ a ∧ 0 ≤ c.2 ∧ c.2 ≤ a) :
    Localised a 0 lo (fun _ _ => P) := by
  constructor
  · intro W H hW hH c hc
    have := hP c hc
    omega
  · intro W H hW hH c hc
    have c1 := squash_cases a 0 W c.1
    have c2 := squash_cases a 0 H c.2
    constructor
    · intro hm
      have := hP c hm
      have e1 : squash a 0 W c.1 = c.1 := by omega
      have e2 : squash a 0 H c.2 = c.2 := by omega
      rw [e1, e2]
      exact hm
    · intro hm
      have := hP _ hm
      simp only at this
      have e1 : squash a 0 W c.1 = c.1 := by omega
      have e2 : squash a 0 H c.2 = c.2 := by omega
      rw [e1, e2] at hm
      exact hm

/-! ## The patterns of the specification -/

/-- The 2×2 block `{(1,1),(2,1),(1,2),(2,2)}`. -/
def block : Grid := [(1, 1), (2, 1), (1, 2), (2, 2)]

/-- The vertical blinker `{(1,0),(1,1),(1,2)}`. -/
def blinker_v : Grid := [(1, 0), (1, 1), (1, 2)]

/-- The horizontal blinker `{(0,1),(1,1),(2,1)}`. -/
def blinker_h : Grid := [(0, 1), (1, 1), (2, 1)]

/-- The block that straddles the seam of the torus:
`{(0,0), (W-1,H-1), (W-1,0), (0,H-1)}`. -/
def corner_block (W H : Int) : Grid := [(0, 0), (W - 1, H - 1), (W - 1, 0), (0, H - 1)]

/-- The glider `{(1,0),(2,1),(0,2),(1,2),(2,2)}`. -/
def glider : Grid := [(1, 0), (2, 1), (0, 2), (1, 2), (2, 2)]

/-- The glider after one generation. -/
def glider1 : Grid := [(0, 1), (2, 1), (1, 2), (2, 2), (1, 3)]

/-- The glider after two generations. -/
def glider2 : Grid := [(2, 1), (0, 2), (2, 2), (1, 3), (2, 3)]

/-- The glider after three generations. -/
def glider3 : Grid := [(1, 1), (2, 2), (3, 2), (1, 3), (2, 3)]

/-- The glider after four generations. -/
def glider4 : Grid := [(2, 1), (3, 2), (1, 3), (2, 3), (3, 3)]

/-- The grid `{((x+a) mod W, (y+b) mod H) : (x,y) ∈ G}`. -/
def shift (W H a b : Int) (G : Grid) : Grid :=
  G.map fun c => ((c.1 + a) % W, (c.2 + b) % H)

/-- A pattern whose coordinates are at most `m` forms no overflowing sum on a viewport
with `W + m` and `H + m` below `2^31 - 1`. -/
theorem fits_of_le (W H : Int) (P : Grid) (m : Int) (hP : ∀ c ∈ P, c.1 ≤ m ∧ c.2 ≤ m)
    (hW : W + m < 2147483647) (hH : H + m < 2147483647) : Fits W H P := by
  intro c hc
  have := hP c hc
  omega

theorem block_step (W H : Int) (hW : 4 ≤ W) (hH : 4 ≤ H)
    (hW' : W ≤ 2147483644) (hH' : H ≤ 2147483644) (G : Grid) (hnd : G.Nodup)
    (hG : ∀ c, c ∈ G ↔ c ∈ block) (c : Coord) :
    c ∈ (update W H G).1 ↔ c ∈ block := by
  have hL : Localised 2 0 4 (fun _ _ => block) :=
    localised_const 2 4 block (by decide) (by unfold block; decide)
  refine step_family 2 0 4 (fun _ _ => block) (fun _ _ => block) hL hL
    (by decide) (by decide) (by decide) (by decide) ?_ W H hW hH
    (fits_of_le W H block 2 (by unfold block; decide) (by omega) (by omega)) G hnd hG c
  intro W' H' h1 h2 h3 h4
  interval_cases W' <;> interval_cases H' <;> decide

theorem blinker_v_step (W H : Int) (hW : 4 ≤ W) (hH : 4 ≤ H)
    (hW' : W ≤ 2147483644) (hH' : H ≤ 2147483644) (G : Grid) (hnd : G.Nodup)
    (hG : ∀ c, c ∈ G ↔ c ∈ blinker_v) (c : Coord) :
    c ∈ (update W H G).1 ↔ c ∈ blinker_h := by
  refine step_family 2 0 4 (fun _ _ => blinker_v) (fun _ _ => blinker_h)
    (localised_const 2 4 blinker_v (by decide) (by unfold blinker_v; decide))
    (localised_const 2 4 blinker_h (by decide) (by unfold blinker_h; decide))
    (by decide) (by decide) (by decide) (by decide) ?_ W H hW hH
    (fits_of_le W H blinker_v 2 (by unfold blinker_v; decide) (by omega) (by omega))
    G hnd hG c
  intro W' H' h1 h2 h3 h4
  interval_cases W' <;> interval_cases H' <;> decide

theorem blinker_h_step (W H : Int) (hW : 4 ≤ W) (hH : 4 ≤ H)
    (hW' : W ≤ 2147483644) (hH' : H ≤ 2147483644) (G : Grid) (hnd : G.Nodup)
    (hG : ∀ c, c ∈ G ↔ c ∈ blinker_h) (c : Coord) :
    c ∈ (update W H G).1 ↔ c ∈ blinker_v := by
  refine step_family 2 0 4 (fun _ _ => blinker_h) (fun _ _ => blinker_v)
    (localised_const 2 4 blinker_h (by decide) (by unfold blinker_h; decide))
    (localised_const 2 4 blinker_v (by decide) (by unfold blinker_v; decide))
    (by decide) (by decide) (by decide) (by decide) ?_ W H hW hH
    (fits_of_le W H blinker_h 2 (by unfold blinker_h; decide) (by omega) (by omega))
    G hnd hG c
  intro W' H' h1 h2 h3 h4
  interval_cases W' <;> interval_cases H' <;> decide

theorem glider_family_step (P Q : Grid)
    (hP : ∀ c ∈ P, 0 ≤ c.1 ∧ c.1 ≤ 4 ∧ 0 ≤ c.2 ∧ c.2 ≤ 4)
    (hQ : ∀ c ∈ Q, 0 ≤ c.1 ∧ c.1 ≤ 4 ∧ 0 ≤ c.2 ∧ c.2 ≤ 4)
    (hP3 : ∀ c ∈ P, c.1 ≤ 3 ∧ c.2 ≤ 3)
    (hstep : steps_to 8 8 P Q = true)
    (W H : Int) (hW : 8 ≤ W) (hH : 8 ≤ H)
    (hW' : W ≤ 2147483643) (hH' : H ≤ 2147483643) (G : Grid) (hnd : G.Nodup)
    (hG : ∀ c, c ∈ G ↔ c ∈ P) (c : Coord) :
    c ∈ (update W H G).1 ↔ c ∈ Q := by
  refine step_family 4 0 8 (fun _ _ => P) (fun _ _ => Q)
    (localised_const 4 8 P (by decide) hP) (localised_const 4 8 Q (by decide) hQ)
    (by decide) (by decide) (by decide) (by decide) ?_ W H hW hH
    (fits_of_le W H P 3 hP3 (by omega) (by omega)) G hnd hG c
  intro W' H' h1 h2 h3 h4
  obtain rfl : W' = 8 := by omega
  obtain rfl : H' = 8 := by omega
  exact hstep

theorem corner_block_localised : Localised 0 1 3 corner_block := by
  constructor
  · intro W H hW hH c hc
    unfold corner_block at hc
    simp only [List.mem_cons, List.mem_singleton, List.not_mem_nil, or_false] at hc
    rcases hc with h | h | h | h <;> subst h <;> simp only <;> omega
  · intro W H hW hH c hc
    obtain ⟨x, y⟩ := c
    have c1 := squash_cases 0 1 W x
    have c2 := squash_cases 0 1 H y
    unfold corner_block
    simp only [List.mem_cons, List.mem_singleton, List.not_mem_nil, or_false, Prod.mk.injEq]
    simp only at hc
    omega

theorem corner_block_fits (W H : Int) (hW : 3 ≤ W) (hH : 3 ≤ H)
    (hW' : W ≤ 1073741824) (hH' : H ≤ 1073741824) : Fits W H (corner_block W H) :=
  fits_of_lt W H _ hW' hH' (fun c hc => (corner_block_localised.inside W H hW hH c hc).1)

theorem corner_block_step (W H : Int) (hW : 3 ≤ W) (hH : 3 ≤ H)
    (hW' : W ≤ 1073741824) (hH' : H ≤ 1073741824) (G : Grid) (hnd : G.Nodup)
    (hG : ∀ c, c ∈ G ↔ c ∈ corner_block W H) (c : Coord) :
    c ∈ (update W H G).1 ↔ c ∈ corner_block W H := by
  refine step_family 0 1 3 corner_block corner_block corner_block_localised
    corner_block_localised (by decide) (by decide) (by decide) (by decide) ?_
    W H hW hH (corner_block_fits W H hW hH hW' hH') G hnd hG c
  intro W' H' h1 h2 h3 h4
  interval_cases W' <;> interval_cases H' <;> decide

theorem mem_shift_congr (W H a b : Int) (G P : Grid) (h : ∀ c, c ∈ G ↔ c ∈ P) (c : Coord) :
    c ∈ shift W H a b G ↔ c ∈ shift W H a b P := by
  unfold shift
  simp only [List.mem_map]
  constructor
  · rintro ⟨g, hg, e⟩
    exact ⟨g, (h g).mp hg, e⟩
  · rintro ⟨g, hg, e⟩
    exact ⟨g, (h g).mpr hg, e⟩

theorem shift_glider (W H : Int) (hW : 8 ≤ W) (hH : 8 ≤ H) :
    shift W H 1 1 glider = glider4 := by
  have a0 : ((0 : Int) + 1) % W = 1 := Int.emod_eq_of_lt (by omega) (by omega)
  have a1 : ((1 : Int) + 1) % W = 2 := Int.emod_eq_of_lt (by omega) (by omega)
  have a2 : ((2 : Int) + 1) % W = 3 := Int.emod_eq_of_lt (by omega) (by omega)
  have b0 : ((0 : Int) + 1) % H = 1 := Int.emod_eq_of_lt (by omega) (by omega)
  have b1 : ((1 : Int) + 1) % H = 2 := Int.emod_eq_of_lt (by omega) (by omega)
  have b2 : ((2 : Int) + 1) % H = 3 := Int.emod_eq_of_lt (by omega) (by omega)
  simp only [shift, glider, glider4, List.map_cons, List.map_nil, a0, a1, a2, b0, b1, b2]

theorem mem_update_live (W H : Int) (G : Grid) (c : Coord) (hW : 1 ≤ W) (hH : 1 ≤ H)
    (hG : InViewport W H G) (hfit : Fits W H [c]) (hc : c ∈ G) :
    c ∈ (update W H G).1 ↔
      (live_neighbours W H G c = 2 ∨ live_neighbours W H G c = 3) := by
  rw [mem_update_code, alive_eq_live W H G c hW hH (hG c hc)
    (hfit c (List.mem_singleton_self c))]
  simp [hc]

/-! ## The seeder at given draws -/

theorem seed_row_mem (w : Nat) (p : Int) (chance : Nat → Int) (y : Nat) (xs : List Nat)
    (acc : Grid × Heatmap) (c : Coord) :
    c ∈ (xs.foldl
        (fun (acc : Grid × Heatmap) (x : Nat) =>
          if chance (y * w + x) < p then
            (acc.1.insert ((x : Int), (y : Int)), acc.2.reset ((x : Int), (y : Int)))
          else acc)
        acc).1 ↔
      c ∈ acc.1 ∨ ∃ x ∈ xs, chance (y * w + x) < p ∧ c = ((x : Int), (y : Int)) := by
  induction xs generalizing acc with
  | nil => simp
  | cons x rest ih =>
    simp only [List.foldl_cons, ih, List.mem_cons, exists_eq_or_imp]
    by_cases hd : chance (y * w + x) < p
    · simp only [hd, if_true, mem_insert_iff, true_and]
      tauto
    · simp only [hd, if_false, false_and, false_or]

theorem seed_initial_mem (grid : Grid) (W H p : Int) (chance : Nat → Int) (c : Coord) :
    c ∈ (seed_initial grid W H p chance).1 ↔
      c ∈ grid ∨ ∃ y ∈ List.range H.toNat, ∃ x ∈ List.range W.toNat,
        chance (y * W.toNat + x) < p ∧ c = ((x : Int), (y : Int)) := by
  unfold seed_initial
  generalize List.range H.toNat = ys
  have : ∀ acc : Grid × Heatmap,
      c ∈ (ys.foldl
        (fun (acc : Grid × Heatmap) (y : Nat) =>
          (List.range W.toNat).foldl
            (fun (acc : Grid × Heatmap) (x : Nat) =>
              if chance (y * W.toNat + x) < p then
                (acc.1.insert ((x : Int), (y : Int)), acc.2.reset ((x : Int), (y : Int)))
              else acc)
            acc)
        acc).1 ↔
      c ∈ acc.1 ∨ ∃ y ∈ ys, ∃ x ∈ List.range W.toNat,
        chance (y * W.toNat + x) < p ∧ c = ((x : Int), (y : Int)) := by
    induction ys with
    | nil => intro acc; simp
    | cons y rest ih =>
      intro acc
      simp only [List.foldl_cons, ih, seed_row_mem, List.mem_cons, exists_eq_or_imp]
      exact or_assoc
  exact this (grid, [])

theorem seed_initial_nodup (grid : Grid) (W H p : Int) (chance : Nat → Int)
    (h : grid.Nodup) : (seed_initial grid W H p chance).1.Nodup := by
  unfold seed_initial
  apply foldl_invariant (fun acc : Grid × Heatmap => acc.1.Nodup)
  · exact h
  · intro acc y _ hacc
    apply foldl_invariant (fun acc : Grid × Heatmap => acc.1.Nodup)
    · exact hacc
    · intro acc' x _ hacc'
      by_cases hd : chance (y * W.toNat + x) < p
      · simp only [hd, if_true]
        exact nodup_insert _ _ hacc'
      · simp only [hd, if_false]
        exact hacc'

theorem cells_nodup (W H : Int) : (cells W H).Nodup := by
  unfold cells
  rw [List.nodup_flatMap]
  constructor
  · intro y _
    apply List.Nodup.map
    · intro a b hab
      simp only [Prod.mk.injEq, Nat.cast_inj, and_true] at hab
      exact hab
    · exact List.nodup_range _
  · apply List.Pairwise.imp _ (List.nodup_range H.toNat)
    intro a b hab
    simp only [Function.onFun]
    rw [List.disjoint_left]
    intro c hc1 hc2
    simp only [List.mem_map, List.mem_range] at hc1 hc2
    obtain ⟨x1, _, rfl⟩ := hc1
    obtain ⟨x2, _, h2⟩ := hc2
    simp only [Prod.mk.injEq, Nat.cast_inj] at h2
    exact hab h2.2.symm

theorem cells_length (W H : Int) : (cells W H).length = H.toNat * W.toNat := by
  unfold cells
  simp [Function.comp_def]

/-! ## Inputs on which the `int` arithmetic of `update` overflows -/

/-- The vertical blinker in the last column of the 1073741825×5 viewport (`W = 2^30 + 1`):
for its cells `x + W = 2^31 + 1` is beyond the largest `int`. -/
def seam_blinker : Grid := [(1073741824, 1), (1073741824, 2), (1073741824, 3)]

/-- The vertical blinker in the last column of the widest viewport, 2147483647×5. -/
def edge_blinker : Grid := [(2147483646, 1), (2147483646, 2), (2147483646, 3)]

/-- Every second row of the viewport alive: the rows `0, 2, 4, ...` below `H`. -/
def stripes (W H : Int) : Grid :=
  (List.range (H.toNat / 2)).flatMap fun (j : Nat) =>
    (List.range W.toNat).map fun (x : Nat) => ((x : Int), 2 * (j : Int))

theorem mem_stripes (W H : Int) (hH : H % 2 = 0) (c : Coord) :
    c ∈ stripes W H ↔ (0 ≤ c.1 ∧ c.1 < W ∧ 0 ≤ c.2 ∧ c.2 < H) ∧ c.2 % 2 = 0 := by
  obtain ⟨x, y⟩ := c
  unfold stripes
  simp only [List.mem_flatMap, List.mem_map, List.mem_range, Prod.mk.injEq]
  constructor
  · rintro ⟨j, hj, i, hi, rfl, rfl⟩
    omega
  · rintro ⟨⟨h1, h2, h3, h4⟩, h5⟩
    exact ⟨(y / 2).toNat, by omega, x.toNat, by omega, by omega, by omega⟩

theorem stripes_nodup (W H : Int) : (stripes W H).Nodup := by
  unfold stripes
  rw [List.nodup_flatMap]
  constructor
  · intro y _
    apply List.Nodup.map
    · intro a b hab
      simp only [Prod.mk.injEq, Nat.cast_inj, and_true] at hab
      exact hab
    · exact List.nodup_range _
  · apply List.Pairwise.imp_of_mem _ (List.nodup_range _)
    intro a b _ _ hab
    simp only [Function.onFun, List.disjoint_left, List.mem_map]
    rintro c ⟨i, _, rfl⟩ ⟨k, _, hk⟩
    simp only [Prod.mk.injEq] at hk
    omega

theorem stripes_length (W H : Int) : (stripes W H).length = H.toNat / 2 * W.toNat := by
  unfold stripes
  simp [Function.comp_def]

theorem stripes_in_viewport (W H : Int) (hE : H % 2 = 0) : InViewport W H (stripes W H) :=
  fun c hc => ((mem_stripes W H hE c).mp hc).1

theorem stripes_live (W H : Int) (hW : 1 ≤ W) (hH : 1 ≤ H) (hE : H % 2 = 0) (c : Coord) :
    live_neighbours W H (stripes W H) c = if c.2 % 2 = 0 then 2 else 6 := by
  have hm : ∀ d : Int × Int,
      (wrapped W H c d ∈ stripes W H ↔ (c.2 + d.2) % 2 = 0) := by
    intro d
    rw [mem_stripes W H hE]
    have hv := wrapped_in_viewport W H c d hW hH
    have hmod : (wrapped W H c d).2 % 2 = (c.2 + d.2) % 2 :=
      Int.emod_emod_of_dvd _ (Int.dvd_of_emod_eq_zero hE)
    rw [hmod]
    exact ⟨fun h => h.2, fun h => ⟨hv, h⟩⟩
  unfold live_neighbours
  simp only [hm, offsets_eq, List.countP_cons, List.countP_nil, decide_eq_true_eq]
  split_ifs <;> omega

/-- The stripes are a still life of the torus of even height. -/
theorem stripes_still (W H : Int) (hW : 1 ≤ W) (hH : 1 ≤ H)
    (hW' : W ≤ 1073741824) (hH' : H ≤ 1073741824) (hE : H % 2 = 0) :
    SameCells (update W H (stripes W H)).1 (stripes W H) := by
  intro c
  have hv := stripes_in_viewport W H hE
  rw [mem_update_iff W H _ c hW hH (stripes_nodup W H) hv (fits_of_lt W H _ hW' hH' hv),
    stripes_live W H hW hH hE c, mem_stripes W H hE]
  by_cases h : c.2 % 2 = 0
  · simp [h]
  · simp [h]

/-- The flag `update` returns on the stripes: the sign of the 32-bit value of their
number. -/
theorem stripes_flag (W H : Int) (hW : 1 ≤ W) (hH : 1 ≤ H)
    (hW' : W ≤ 1073741824) (hH' : H ≤ 1073741824) (hE : H % 2 = 0) :
    (update W H (stripes W H)).1.length = H.toNat / 2 * W.toNat ∧
    (update W H (stripes W H)).2 =
      decide (0 < wrap_int ((H.toNat / 2 * W.toNat : Nat) : Int)) := by
  have hv := stripes_in_viewport W H hE
  have hlen : (update W H (stripes W H)).1.length = H.toNat / 2 * W.toNat := by
    rw [length_eq_of_sameCells _ _ (update_nodup W H _) (stripes_nodup W H)
      (stripes_still W H hW hH hW' hH' hE), stripes_length]
  refine ⟨hlen, ?_⟩
  rw [update_flag_eq W H _ hW hH (stripes_nodup W H) hv (fits_of_lt W H _ hW' hH' hv), hlen]

/-! ## Colours -/

theorem ansi_color_code_unknown (color : String) (background : Bool)
    (h : color ∉ ["black", "red", "green", "yellow", "blue", "magenta", "cyan", "white",
      "default"]) :
    ansi_color_code color background = "" := by
  simp only [List.mem_cons, List.mem_singleton, List.not_mem_nil, or_false, not_or] at h
  obtain ⟨h1, h2, h3, h4, h5, h6, h7, h8, h9⟩ := h
  have b1 : (color == "black") = false := beq_eq_false_iff_ne.mpr h1
  have b2 : (color == "red") = false := beq_eq_false_iff_ne.mpr h2
  have b3 : (color == "green") = false := beq_eq_false_iff_ne.mpr h3
  have b4 : (color == "yellow") = false := beq_eq_false_iff_ne.mpr h4
  have b5 : (color == "blue") = false := beq_eq_false_iff_ne.mpr h5
  have b6 : (color == "magenta") = false := beq_eq_false_iff_ne.mpr h6
  have b7 : (color == "cyan") = false := beq_eq_false_iff_ne.mpr h7
  have b8 : (color == "white") = false := beq_eq_false_iff_ne.mpr h8
  have b9 : (color == "default") = false := beq_eq_false_iff_ne.mpr h9
  simp only [ansi_color_code, COLORS, List.lookup, b1, b2, b3, b4, b5, b6, b7, b8, b9]

/-! ## Command-line parsing -/

theorem clamp_eq (n : Int) : clamp n 100 10000 = max 100 (min n 10000) := by
  unfold clamp
  split_ifs <;> omega

theorem clamp_range (n : Int) : 100 ≤ clamp n 100 10000 ∧ clamp n 100 10000 ≤ 10000 := by
  unfold clamp
  split_ifs <;> omega

theorem parse_loop_speed_range (stoi : String → Option Int) (args : List String) :
    ∀ (skip : Bool) (cfg cfg' : Config), parse_loop stoi args skip cfg = Parsed.done cfg' →
      (100 ≤ cfg.speed_ms ∧ cfg.speed_ms ≤ 10000) →
      (100 ≤ cfg'.speed_ms ∧ cfg'.speed_ms ≤ 10000) := by
  induction args with
  | nil =>
    intro skip cfg cfg' h hr
    simp only [parse_loop, Parsed.done.injEq] at h
    subst h
    exact hr
  | cons arg rest ih =>
    intro skip cfg cfg' h hr
    cases skip with
    | true =>
      simp only [parse_loop] at h
      exact ih _ _ _ h hr
    | false =>
      simp only [parse_loop] at h
      split_ifs at h
      · split at h
        · exact absurd h (by simp)
        · exact ih _ _ _ h hr
      · split at h
        · exact absurd h (by simp)
        · exact ih _ _ _ h hr
      · split at h
        · exact absurd h (by simp)
        · exact ih _ _ _ h hr
      · split at h
        · exact absurd h (by simp)
        · exact ih _ _ _ h (clamp_range _)
      · exact ih _ _ _ h hr
      · exact ih _ _ _ h hr
      · exact ih _ _ _ h hr
      · exact ih _ _ _ h hr
      · exact ih _ _ _ h hr

theorem speed_arg_data (s : String) :
    ("--speed=" ++ s).data = '-' :: '-' :: 's' :: 'p' :: 'e' :: 'e' :: 'd' :: '=' :: s.data := by
  rw [String.data_append]
  rfl

theorem parse_speed_separate (stoi : String → Option Int) (s : String) (n : Int)
    (prog : String) (cfg : Config) (hs : stoi s = some n) :
    parse_args stoi [prog, "--speed", s] cfg =
      Parsed.done { cfg with speed_ms := clamp n 100 10000 } := by
  have hv : value "--speed" (some s) = (s, true) := by
    unfold value
    have : find_char '=' "--speed".data = none := by decide
    rw [this]
  have h1 : ("--speed" = "--help") = False := by decide
  have h2 : starts_with "--speed" "--window-width" = false := by decide
  have h3 : starts_with "--speed" "--window-height" = false := by decide
  have h4 : starts_with "--speed" "--init-coverage" = false := by decide
  have h5 : starts_with "--speed" "--speed" = true := by decide
  simp only [parse_args, List.tail_cons, parse_loop, h1, h2, h3, h4, h5, if_false, if_true,
    List.head?_cons, hv, hs, Bool.false_eq_true]

theorem parse_speed_joined (stoi : String → Option Int) (s : String) (n : Int)
    (prog : String) (cfg : Config) (hs : stoi s = some n) :
    parse_args stoi [prog, "--speed=" ++ s] cfg =
      Parsed.done { cfg with speed_ms := clamp n 100 10000 } := by
  have hd := speed_arg_data s
  have hv : value ("--speed=" ++ s) none = (s, false) := by
    unfold value
    have : find_char '=' ("--speed=" ++ s).data = some 7 := by
      rw [hd]
      simp [find_char]
    rw [this, hd]
    rfl
  have h1 : ("--speed=" ++ s = "--help") = False := by
    apply eq_false
    intro h
    have := congrArg String.data h
    rw [hd] at this
    have e : "--help".data = ['-', '-', 'h', 'e', 'l', 'p'] := rfl
    rw [e] at this
    simp at this
  have h2 : starts_with ("--speed=" ++ s) "--window-width" = false := by
    unfold starts_with
    rw [hd]
    rfl
  have h3 : starts_with ("--speed=" ++ s) "--window-height" = false := by
    unfold starts_with
    rw [hd]
    rfl
  have h4 : starts_with ("--speed=" ++ s) "--init-coverage" = false := by
    unfold starts_with
    rw [hd]
    rfl
  have h5 : starts_with ("--speed=" ++ s) "--speed" = true := by
    unfold starts_with
    rw [hd]
    rfl
  simp only [parse_args, List.tail_cons, parse_loop, h1, h2, h3, h4, h5, if_false, if_true,
    List.head?_nil, hv, hs, Bool.false_eq_true]

/-! ## Translations of the torus -/

/-- The cell `c` moved by `(a,b)` on the torus. -/
def shift_cell (W H a b : Int) (c : Coord) : Coord :=
  ((c.1 + a) % W, (c.2 + b) % H)

theorem shift_eq_map (W H a b : Int) (G : Grid) : shift W H a b G = G.map (shift_cell W H a b) :=
  rfl

theorem shift_cell_in_viewport (W H a b : Int) (c : Coord) (hW : 1 ≤ W) (hH : 1 ≤ H) :
    0 ≤ (shift_cell W H a b c).1 ∧ (shift_cell W H a b c).1 < W ∧
    0 ≤ (shift_cell W H a b c).2 ∧ (shift_cell W H a b c).2 < H := by
  unfold shift_cell
  exact ⟨Int.emod_nonneg _ (by omega), Int.emod_lt_of_pos _ (by omega),
    Int.emod_nonneg _ (by omega), Int.emod_lt_of_pos _ (by omega)⟩

theorem shift_cell_back (W H a b : Int) (c : Coord)
    (hc : 0 ≤ c.1 ∧ c.1 < W ∧ 0 ≤ c.2 ∧ c.2 < H) :
    shift_cell W H (-a) (-b) (shift_cell W H a b c) = c := by
  obtain ⟨x, y⟩ := c
  simp only [shift_cell, Int.emod_add_emod, Prod.mk.injEq]
  simp only at hc
  constructor
  · rw [show x + a + -a = x by omega]
    exact Int.emod_eq_of_lt hc.1 hc.2.1
  · rw [show y + b + -b = y by omega]
    exact Int.emod_eq_of_lt hc.2.2.1 hc.2.2.2

theorem shift_cell_forth (W H a b : Int) (c : Coord)
    (hc : 0 ≤ c.1 ∧ c.1 < W ∧ 0 ≤ c.2 ∧ c.2 < H) :
    shift_cell W H a b (shift_cell W H (-a) (-b) c) = c := by
  have := shift_cell_back W H (-a) (-b) c hc
  simpa using this

theorem shift_in_viewport (W H a b : Int) (G : Grid) (hW : 1 ≤ W) (hH : 1 ≤ H) :
    InViewport W H (shift W H a b G) := by
  intro c hc
  rw [shift_eq_map, List.mem_map] at hc
  obtain ⟨g, _, rfl⟩ := hc
  exact shift_cell_in_viewport W H a b g hW hH

theorem mem_shift_iff (W H a b : Int) (G : Grid) (c : Coord) (hW : 1 ≤ W) (hH : 1 ≤ H)
    (hG : InViewport W H G) :
    c ∈ shift W H a b G ↔
      (0 ≤ c.1 ∧ c.1 < W ∧ 0 ≤ c.2 ∧ c.2 < H) ∧ shift_cell W H (-a) (-b) c ∈ G := by
  rw [shift_eq_map, List.mem_map]
  constructor
  · rintro ⟨g, hg, rfl⟩
    refine ⟨shift_cell_in_viewport W H a b g hW hH, ?_⟩
    rw [shift_cell_back W H a b g (hG g hg)]
    exact hg
  · rintro ⟨hc, hm⟩
    exact ⟨_, hm, shift_cell_forth W H a b c hc⟩

theorem shift_nodup (W H a b : Int) (G : Grid) (hnd : G.Nodup) (hG : InViewport W H G) :
    (shift W H a b G).Nodup := by
  rw [shift_eq_map]
  apply List.Nodup.map_on _ hnd
  intro x hx y hy hxy
  rw [← shift_cell_back W H a b x (hG x hx), ← shift_cell_back W H a b y (hG y hy), hxy]

theorem wrapped_shift_cell (W H a b : Int) (c : Coord) (d : Int × Int) :
    shift_cell W H a b (wrapped W H c d) = wrapped W H (shift_cell W H a b c) d := by
  simp only [shift_cell, wrapped, Int.emod_add_emod, Prod.mk.injEq]
  constructor
  · rw [show c.1 + d.1 + a = c.1 + a + d.1 by omega]
  · rw [show c.2 + d.2 + b = c.2 + b + d.2 by omega]

theorem live_neighbours_shift (W H a b : Int) (G : Grid) (c : Coord) (hW : 1 ≤ W) (hH : 1 ≤ H)
    (hG : InViewport W H G) :
    live_neighbours W H (shift W H a b G) c =
      live_neighbours W H G (shift_cell W H (-a) (-b) c) := by
  unfold live_neighbours
  apply List.countP_congr
  intro d _
  simp only [decide_eq_true_eq]
  rw [mem_shift_iff W H a b G _ hW hH hG, wrapped_shift_cell]
  constructor
  · rintro ⟨-, h⟩; exact h
  · intro h; exact ⟨wrapped_in_viewport W H c d hW hH, h⟩

theorem rule_shift (W H a b : Int) (G : Grid) (c : Coord) (hW : 1 ≤ W) (hH : 1 ≤ H)
    (hG : InViewport W H G) (hc : 0 ≤ c.1 ∧ c.1 < W ∧ 0 ≤ c.2 ∧ c.2 < H) :
    rule W H (shift W H a b G) c = rule W H G (shift_cell W H (-a) (-b) c) := by
  unfold rule
  rw [live_neighbours_shift W H a b G c hW hH hG]
  have hm := mem_shift_iff W H a b G c hW hH hG
  by_cases h : shift_cell W H (-a) (-b) c ∈ G
  · rw [if_pos h, if_pos (hm.mpr ⟨hc, h⟩)]
  · rw [if_neg h, if_neg (fun h' => h (hm.mp h').2)]

/-- Stepping a moved grid gives the moved successor, with the same flag, where neither run
forms an overflowing sum. -/
theorem update_shift (W H a b : Int) (G : Grid) (hW : 1 ≤ W) (hH : 1 ≤ H)
    (hnd : G.Nodup) (hG : InViewport W H G) (hfit : Fits W H G)
    (hfit' : Fits W H (shift W H a b G)) :
    SameCells (update W H (shift W H a b G)).1 (shift W H a b (update W H G).1) ∧
    (update W H (shift W H a b G)).2 = (update W H G).2 := by
  have hSv := shift_in_viewport W H a b G hW hH
  have hSnd := shift_nodup W H a b G hnd hG
  have hUv := update_in_viewport W H G hW hH hG hfit
  have hsame : SameCells (update W H (shift W H a b G)).1 (shift W H a b (update W H G).1) := by
    intro c
    rw [mem_shift_iff W H a b _ c hW hH hUv]
    by_cases hc : 0 ≤ c.1 ∧ c.1 < W ∧ 0 ≤ c.2 ∧ c.2 < H
    · rw [mem_update_rule W H _ (shift W H a b G) c hW hH hSnd (fun _ => Iff.rfl) hSv hfit' hc,
        rule_shift W H a b G c hW hH hG hc,
        mem_update_rule W H G G _ hW hH hnd (fun _ => Iff.rfl) hG hfit
          (shift_cell_in_viewport W H (-a) (-b) c hW hH)]
      simp [hc]
    · constructor
      · intro hm
        exact absurd hm (not_mem_update_outside W H _ c hW hH hSv hfit' hc)
      · rintro ⟨h, -⟩
        exact absurd h hc
  refine ⟨hsame, ?_⟩
  have hlen : (update W H (shift W H a b G)).1.length = (update W H G).1.length := by
    rw [length_eq_of_sameCells _ _ (update_nodup W H _)
      (shift_nodup W H a b _ (update_nodup W H G) hUv) hsame, shift_eq_map, List.length_map]
  rw [update_flag_eq W H _ hW hH hSnd hSv hfit', update_flag_eq W H G hW hH hnd hG hfit, hlen]

/-! ## A lone cell, over the whole range of `int` sizes -/

/-- The truncating remainder of a value within two multiples of the modulus. -/
theorem tmod_cases (u M : Int) (hM : 1 ≤ M) (h1 : -(2 * M) ≤ u) (h2 : u ≤ 2 * M) :
    (0 ≤ u → 0 ≤ Int.tmod u M ∧ Int.tmod u M < M ∧
      (u = Int.tmod u M ∨ u = Int.tmod u M + M ∨ u = Int.tmod u M + 2 * M)) ∧
    (u < 0 → -M < Int.tmod u M ∧ Int.tmod u M ≤ 0 ∧
      (u = Int.tmod u M ∨ u = Int.tmod u M - M ∨ u = Int.tmod u M - 2 * M)) := by
  have pos : ∀ v : Int, 0 ≤ v → v ≤ 2 * M → 0 ≤ Int.tmod v M ∧ Int.tmod v M < M ∧
      (v = Int.tmod v M ∨ v = Int.tmod v M + M ∨ v = Int.tmod v M + 2 * M) := by
    intro v hv0 hv2
    rw [Int.tmod_eq_emod hv0 (by omega)]
    have e1 := Int.emod_nonneg v (show M ≠ 0 by omega)
    have e2 := Int.emod_lt_of_pos v (show 0 < M by omega)
    have e3 := Int.emod_add_ediv v M
    have q0 : 0 ≤ v / M := Int.ediv_nonneg hv0 (by omega)
    have q2 : v / M ≤ 2 := by
      have := Int.ediv_le_ediv (show 0 < M by omega) hv2
      rw [Int.mul_ediv_cancel _ (show M ≠ 0 by omega)] at this
      exact this
    refine ⟨e1, e2, ?_⟩
    generalize v / M = q at e3 q0 q2
    interval_cases q
    · left; omega
    · right; left; omega
    · right; right; omega
  refine ⟨fun h => pos u h h2, fun h => ?_⟩
  have hneg : Int.tmod (-u) M = -Int.tmod u M := by
    rw [Int.tmod_def, Int.tmod_def, Int.neg_tdiv, Int.mul_neg]
    omega
  have := pos (-u) (by omega) (by omega)
  rw [hneg] at this
  omega

/-- One coordinate of the neighbour `update` computes, as a function of the offset. -/
def coord (M x dx : Int) : Int :=
  Int.tmod (wrap_int (wrap_int (x + dx) + M)) M

theorem coord_cases (M x dx : Int) (hM : 2 ≤ M) (hM' : M ≤ 2147483647)
    (hx0 : 0 ≤ x) (hxM : x < M) (hd0 : -1 ≤ dx) (hd1 : dx ≤ 1) :
    (x + dx + M < 2147483648 ∧ 0 ≤ coord M x dx ∧ coord M x dx < M ∧
      (x + dx + M = coord M x dx ∨ x + dx + M = coord M x dx + M ∨
        x + dx + M = coord M x dx + 2 * M)) ∨
    (2147483648 ≤ x + dx + M ∧ -M < coord M x dx ∧ coord M x dx ≤ 0 ∧
      (x + dx + M - 4294967296 = coord M x dx ∨ x + dx + M - 4294967296 = coord M x dx - M ∨
        x + dx + M - 4294967296 = coord M x dx - 2 * M)) := by
  unfold coord
  rw [wrap_int_add]
  by_cases h : x + dx + M < 2147483648
  · left
    rw [wrap_int_of_range (x + dx + M) (by omega) h]
    exact ⟨h, (tmod_cases (x + dx + M) M (by omega) (by omega) (by omega)).1 (by omega)⟩
  · right
    have hw : wrap_int (x + dx + M) = x + dx + M - 4294967296 := by
      unfold wrap_int
      omega
    rw [hw]
    exact ⟨by omega,
      (tmod_cases (x + dx + M - 4294967296) M (by omega) (by omega) (by omega)).2 (by omega)⟩

/-- On a size of at least 2 the three offsets give coordinates of which neighbouring
ones differ, and the two outer ones are not both the coordinate of the cell. -/
theorem coord_distinct (M x : Int) (hM : 2 ≤ M) (hM' : M ≤ 2147483647)
    (hx0 : 0 ≤ x) (hxM : x < M) :
    coord M x (-1) ≠ coord M x 0 ∧ coord M x 0 ≠ coord M x 1 ∧
    ¬ (coord M x (-1) = x ∧ coord M x 1 = x) := by
  have a := coord_cases M x (-1) hM hM' hx0 hxM (by omega) (by omega)
  have b := coord_cases M x 0 hM hM' hx0 hxM (by omega) (by omega)
  have c := coord_cases M x 1 hM hM' hx0 hxM (by omega) (by omega)
  generalize coord M x (-1) = p at a
  generalize coord M x 0 = q at b
  generalize coord M x 1 = r at c
  refine ⟨?_, ?_, ?_⟩ <;> omega

/-- Which of three values, neighbouring ones distinct, equal a given one. -/
theorem three_cases (p1 p2 p3 a x : Int) (f1 : p1 ≠ p2) (f2 : p2 ≠ p3)
    (f3 : ¬ (p1 = x ∧ p3 = x)) :
    (p1 ≠ a ∧ p2 ≠ a ∧ p3 ≠ a) ∨ (p1 = a ∧ p2 ≠ a ∧ p3 ≠ a) ∨
    (p1 ≠ a ∧ p2 = a ∧ p3 ≠ a) ∨ (p1 ≠ a ∧ p2 ≠ a ∧ p3 = a) ∨
    (p1 = a ∧ p2 ≠ a ∧ p3 = a ∧ a ≠ x) := by
  by_cases h1 : p1 = a
  · by_cases h3 : p3 = a
    · exact Or.inr (Or.inr (Or.inr (Or.inr ⟨h1, by omega, h3, by omega⟩)))
    · exact Or.inr (Or.inl ⟨h1, by omega, h3⟩)
  · by_cases h2 : p2 = a
    · exact Or.inr (Or.inr (Or.inl ⟨h1, h2, by omega⟩))
    · by_cases h3 : p3 = a
      · exact Or.inr (Or.inr (Or.inr (Or.inl ⟨h1, h2, h3⟩)))
      · exact Or.inl ⟨h1, h2, h3⟩

/-- The offsets around a lone cell never give one coordinate pair three times, nor the
cell itself twice. -/
theorem lone_cell_counts (W H : Int) (c k : Coord) (hW : 2 ≤ W) (hH : 2 ≤ H)
    (hW' : W ≤ 2147483647) (hH' : H ≤ 2147483647)
    (hc : 0 ≤ c.1 ∧ c.1 < W ∧ 0 ≤ c.2 ∧ c.2 < H) :
    (offsets.countP fun d => decide (neighbor W H c d = k)) ≠ 3 ∧
    (k = c → (offsets.countP fun d => decide (neighbor W H c d = k)) ≠ 2) := by
  obtain ⟨x, y⟩ := c
  obtain ⟨a, b⟩ := k
  simp only at hc
  obtain ⟨f1, f2, f3⟩ := coord_distinct W x hW hW' hc.1 hc.2.1
  obtain ⟨g1, g2, g3⟩ := coord_distinct H y hH hH' hc.2.2.1 hc.2.2.2
  have hn : ∀ d : Int × Int, neighbor W H (x, y) d = (coord W x d.1, coord H y d.2) :=
    fun _ => rfl
  simp only [offsets_eq, hn, List.countP_cons, List.countP_nil, Prod.mk.injEq,
    decide_eq_true_eq, zero_add]
  generalize coord W x (-1) = p1 at f1 f3 ⊢
  generalize coord W x 0 = p2 at f1 f2 ⊢
  generalize coord W x 1 = p3 at f2 f3 ⊢
  generalize coord H y (-1) = q1 at g1 g3 ⊢
  generalize coord H y 0 = q2 at g1 g2 ⊢
  generalize coord H y 1 = q3 at g2 g3 ⊢
  have hp := three_cases p1 p2 p3 a x f1 f2 f3
  have hq := three_cases q1 q2 q3 b y g1 g2 g3
  rcases hp with ⟨h1, h2, h3⟩ | ⟨h1, h2, h3⟩ | ⟨h1, h2, h3⟩ | ⟨h1, h2, h3⟩ | ⟨h1, h2, h3, h4⟩ <;>
    rcases hq with ⟨k1, k2, k3⟩ | ⟨k1, k2, k3⟩ | ⟨k1, k2, k3⟩ | ⟨k1, k2, k3⟩ |
      ⟨k1, k2, k3, k4⟩ <;>
    simp only [h1, h2, h3, k1, k2, k3, and_self, and_true, and_false, true_and,
      false_and, if_true, if_false, ne_eq, not_false_eq_true] <;>
    simp <;> omega

/-- On a viewport at least 2 wide and high, whatever the sums do in 32 bits, a lone
cell dies and nothing is born. -/
theorem single_cell_step (W H : Int) (hW : 2 ≤ W) (hH : 2 ≤ H)
    (hW' : W ≤ 2147483647) (hH' : H ≤ 2147483647) (c : Coord)
    (hc : 0 ≤ c.1 ∧ c.1 < W ∧ 0 ≤ c.2 ∧ c.2 < H) :
    update W H [c] = ([], false) := by
  have hnil : (update W H [c]).1 = [] := by
    rw [List.eq_nil_iff_forall_not_mem]
    intro k hk
    rw [mem_update_code] at hk
    have hcount := lone_cell_counts W H c k hW hH hW' hH' hc
    rcases hk with ⟨hm, ha⟩ | ⟨-, ht⟩
    · rw [List.mem_singleton] at hm
      have he : alive_neighbors W H [c] k =
          offsets.countP fun d => decide (neighbor W H c d = k) := by
        unfold alive_neighbors
        rw [hm]
        apply List.countP_congr
        intro d _
        simp only [List.mem_singleton]
      rw [he] at ha
      rcases ha with ha | ha
      · exact hcount.2 hm ha
      · exact hcount.1 ha
    · have he : tally W H [c] k = offsets.countP fun d => decide (neighbor W H c d = k) := by
        simp [tally]
      have hle : (offsets.countP fun d => decide (neighbor W H c d = k)) ≤ 8 :=
        le_trans (List.countP_le_length _) (by decide)
      rw [he, wrap_int_of_range _ (by omega) (by omega)] at ht
      exact hcount.1 (by exact_mod_cast ht)
  exact Prod.ext hnil (update_flag_of_nil W H [c] hnil)

/-! ## Lines of the emitted text -/

/-- The first line of a text, its newline included. -/
def first_line : List Char → List Char
  | [] => []
  | c :: cs => if c = '\n' then [c] else c :: first_line cs

/-- The text after its first line. -/
def drop_line : List Char → List Char
  | [] => []
  | c :: cs => if c = '\n' then cs else drop_line cs

/-- Line number `n` of a text, counted from 0, its newline included. -/
def nth_line : Nat → List Char → List Char
  | 0, t => first_line t
  | n + 1, t => nth_line n (drop_line t)

/-- The glyph strings of a configuration hold no newline character. -/
def GlyphsOk (cfg : Config) : Prop :=
  '\n' ∉ cfg.cell.data ∧ '\n' ∉ cfg.wall_horizontal.data ∧ '\n' ∉ cfg.wall_vertical.data ∧
  '\n' ∉ cfg.corner_ul.data ∧ '\n' ∉ cfg.corner_ur.data ∧
  '\n' ∉ cfg.corner_ll.data ∧ '\n' ∉ cfg.corner_lr.data

/-- The status line of a frame, without its newline. -/
def status_text (grid : Grid) (cfg : Config) (stable_ratio : String) : List Char :=
  (ansi_color_code cfg.color_fg false).data ++ (ansi_color_code cfg.color_bg true).data ++
  " Alive cells: ".data ++ (toString grid.length).data ++ " (".data ++ stable_ratio.data ++
  " % stable)".data ++ "\x1b[K".data

/-- A border line of a frame, without newline: corner, `W` wall glyphs, corner. -/
def border_text (left : String) (W : Int) (wall right : String) : List Char :=
  left.data ++ (List.replicate W.toNat wall).flatMap String.data ++ right.data

/-- The glyph `render` writes for the cell `(x,y)`. -/
def glyph (grid : Grid) (cfg : Config) (y x : Nat) : String :=
  if ((x : Int), (y : Int)) ∈ grid then cfg.cell else " "

/-- Row `y` of the grid area of a frame, without its newline. -/
def row_text (grid : Grid) (W : Int) (cfg : Config) (y : Nat) : List Char :=
  cfg.wall_vertical.data ++
  ((List.range W.toNat).map (glyph grid cfg y)).flatMap String.data ++
  cfg.wall_vertical.data

/-- The newline-terminated lines of a frame: status line, top border, grid rows. -/
def frame_lines (grid : Grid) (W H : Int) (cfg : Config) (stable_ratio : String) :
    List (List Char) :=
  [status_text grid cfg stable_ratio,
   border_text cfg.corner_ul W cfg.wall_horizontal cfg.corner_ur] ++
  (List.range H.toNat).map (row_text grid W cfg)

theorem first_line_append (p r : List Char) (hp : '\n' ∉ p) :
    first_line (p ++ '\n' :: r) = p ++ ['\n'] := by
  induction p with
  | nil => simp [first_line]
  | cons c cs ih =>
    have hc : c ≠ '\n' := fun e => hp (e ▸ List.mem_cons_self _ _)
    have hcs : '\n' ∉ cs := fun h => hp (List.mem_cons_of_mem _ h)
    simp [first_line, hc, ih hcs]

theorem drop_line_append (p r : List Char) (hp : '\n' ∉ p) :
    drop_line (p ++ '\n' :: r) = r := by
  induction p with
  | nil => simp [drop_line]
  | cons c cs ih =>
    have hc : c ≠ '\n' := fun e => hp (e ▸ List.mem_cons_self _ _)
    have hcs : '\n' ∉ cs := fun h => hp (List.mem_cons_of_mem _ h)
    simp [drop_line, hc, ih hcs]

theorem nth_line_lines (ls : List (List Char)) (tail : List Char)
    (hls : ∀ l ∈ ls, '\n' ∉ l) (i : Nat) (l : List Char) (hi : ls[i]? = some l) :
    nth_line i ((ls.flatMap fun l => l ++ ['\n']) ++ tail) = l ++ ['\n'] := by
  induction ls generalizing i with
  | nil => simp at hi
  | cons a rest ih =>
    have ha : '\n' ∉ a := hls a (List.mem_cons_self _ _)
    have hrest : ∀ l ∈ rest, '\n' ∉ l := fun l hl => hls l (List.mem_cons_of_mem _ hl)
    have e : ((a :: rest).flatMap fun l => l ++ ['\n']) ++ tail =
        a ++ '\n' :: ((rest.flatMap fun l => l ++ ['\n']) ++ tail) := by
      simp [List.flatMap_cons]
    rw [e]
    cases i with
    | zero =>
      simp only [List.getElem?_cons_zero, Option.some.injEq] at hi
      subst hi
      simp only [nth_line]
      exact first_line_append _ _ ha
    | succ j =>
      simp only [List.getElem?_cons_succ] at hi
      simp only [nth_line]
      rw [drop_line_append _ _ ha]
      exact ih hrest j hi

theorem count_newline_lines (ls : List (List Char)) (tail : List Char)
    (hls : ∀ l ∈ ls, '\n' ∉ l) (ht : '\n' ∉ tail) :
    ((ls.flatMap fun l => l ++ ['\n']) ++ tail).count '\n' = ls.length := by
  induction ls with
  | nil => simpa using List.count_eq_zero.mpr ht
  | cons a rest ih =>
    have ha : '\n' ∉ a := hls a (List.mem_cons_self _ _)
    have hrest : ∀ l ∈ rest, '\n' ∉ l := fun l hl => hls l (List.mem_cons_of_mem _ hl)
    have := ih hrest
    simp only [List.flatMap_cons, List.append_assoc, List.count_append,
      List.count_eq_zero.mpr ha, List.length_cons] at this ⊢
    simp only [List.count_cons_self, List.count_nil]
    omega

/-! ## No newline in what `render` writes besides its own -/

theorem digitChar_ne_newline (n : Nat) : Nat.digitChar n ≠ '\n' := by
  rcases Nat.lt_or_ge n 16 with h | h
  · interval_cases n <;> decide
  · have e : Nat.digitChar n = '*' := by
      unfold Nat.digitChar
      repeat rw [if_neg (by omega)]
    rw [e]
    decide

theorem toDigitsCore_no_newline (fuel : Nat) : ∀ (n : Nat) (ds : List Char),
    '\n' ∉ ds → '\n' ∉ Nat.toDigitsCore 10 fuel n ds := by
  induction fuel with
  | zero => intro n ds h; simpa [Nat.toDigitsCore] using h
  | succ f ih =>
    intro n ds h
    have hcons : '\n' ∉ Nat.digitChar (n % 10) :: ds := by
      intro hm
      rcases List.mem_cons.mp hm with e | hm
      · exact digitChar_ne_newline _ e.symm
      · exact h hm
    unfold Nat.toDigitsCore
    simp only
    split_ifs
    · exact hcons
    · exact ih _ _ hcons

theorem nat_text_no_newline (n : Nat) : '\n' ∉ (toString n).data := by
  show '\n' ∉ Nat.toDigitsCore 10 (n + 1) n []
  exact toDigitsCore_no_newline _ _ _ (List.not_mem_nil _)

theorem ansi_color_code_no_newline (color : String) (background : Bool) :
    '\n' ∉ (ansi_color_code color background).data := by
  by_cases h : color ∈ ["black", "red", "green", "yellow", "blue", "magenta", "cyan",
      "white", "default"]
  · simp only [List.mem_cons, List.mem_singleton, List.not_mem_nil, or_false] at h
    rcases h with h | h | h | h | h | h | h | h | h <;> subst h <;>
      cases background <;> decide
  · rw [ansi_color_code_unknown color background h]
    simp

theorem replicate_no_newline (n : Nat) (s : String) (hs : '\n' ∉ s.data) :
    '\n' ∉ (List.replicate n s).flatMap String.data := by
  intro h
  rw [List.mem_flatMap] at h
  obtain ⟨t, ht, hm⟩ := h
  rw [List.eq_of_mem_replicate ht] at hm
  exact hs hm

theorem status_text_no_newline (grid : Grid) (cfg : Config) (r : String)
    (hr : '\n' ∉ r.data) : '\n' ∉ status_text grid cfg r := by
  unfold status_text
  simp only [List.mem_append, not_or]
  exact ⟨⟨⟨⟨⟨⟨⟨ansi_color_code_no_newline _ _, ansi_color_code_no_newline _ _⟩, by decide⟩,
    nat_text_no_newline _⟩, by decide⟩, hr⟩, by decide⟩, by decide⟩

theorem border_text_no_newline (l : String) (W : Int) (w r : String)
    (hl : '\n' ∉ l.data) (hw : '\n' ∉ w.data) (hr : '\n' ∉ r.data) :
    '\n' ∉ border_text l W w r := by
  unfold border_text
  simp only [List.mem_append, not_or]
  exact ⟨⟨hl, replicate_no_newline _ _ hw⟩, hr⟩

theorem glyph_no_newline (grid : Grid) (cfg : Config) (y x : Nat) (hcfg : GlyphsOk cfg) :
    '\n' ∉ (glyph grid cfg y x).data := by
  unfold glyph
  split_ifs
  · exact hcfg.1
  · decide

theorem row_text_no_newline (grid : Grid) (W : Int) (cfg : Config) (y : Nat)
    (hcfg : GlyphsOk cfg) : '\n' ∉ row_text grid W cfg y := by
  unfold row_text
  simp only [List.mem_append, not_or]
  refine ⟨⟨hcfg.2.2.1, ?_⟩, hcfg.2.2.1⟩
  intro h
  rw [List.mem_flatMap] at h
  obtain ⟨t, ht, hm⟩ := h
  rw [List.mem_map] at ht
  obtain ⟨x, _, rfl⟩ := ht
  exact glyph_no_newline grid cfg y x hcfg hm

theorem frame_lines_no_newline (grid : Grid) (W H : Int) (cfg : Config) (r : String)
    (hcfg : GlyphsOk cfg) (hr : '\n' ∉ r.data) :
    ∀ l ∈ frame_lines grid W H cfg r, '\n' ∉ l := by
  intro l hl
  unfold frame_lines at hl
  simp only [List.cons_append, List.nil_append, List.mem_cons, List.mem_map] at hl
  rcases hl with rfl | rfl | ⟨y, _, rfl⟩
  · exact status_text_no_newline grid cfg r hr
  · exact border_text_no_newline _ _ _ _ hcfg.2.2.2.1 hcfg.2.1 hcfg.2.2.2.2.1
  · exact row_text_no_newline grid W cfg y hcfg

theorem emitted_append (a b : List String) : emitted (a ++ b) = emitted a ++ emitted b := by
  unfold emitted
  exact List.flatMap_append _ _ _

theorem emitted_grid_row (grid : Grid) (W : Int) (cfg : Config) (y : Nat) :
    emitted (grid_row grid W cfg y) = row_text grid W cfg y ++ ['\n'] := by
  unfold emitted grid_row row_text
  simp only [List.flatMap_append, List.flatMap_cons, List.flatMap_nil, List.append_nil,
    List.append_assoc]
  rfl

/-- The text of a frame: its newline-terminated lines, then the bottom border and the
reset escape, which no newline follows. -/
theorem emitted_render (grid : Grid) (W H : Int) (cfg : Config) (r : String) :
    emitted (render grid W H cfg r) =
      ((frame_lines grid W H cfg r).flatMap fun l => l ++ ['\n']) ++
      (border_text cfg.corner_ll W cfg.wall_horizontal cfg.corner_lr ++ ANSI_RESET.data) := by
  have hrows : emitted ((List.range H.toNat).flatMap fun (y : Nat) => grid_row grid W cfg y) =
      ((List.range H.toNat).map (row_text grid W cfg)).flatMap fun l => l ++ ['\n'] := by
    generalize List.range H.toNat = ys
    induction ys with
    | nil => rfl
    | cons y rest ih =>
      simp only [List.flatMap_cons, List.map_cons, emitted_append, emitted_grid_row, ih]
  unfold render
  rw [emitted_append, emitted_append, emitted_append, hrows]
  unfold frame_lines
  simp only [List.flatMap_append, List.flatMap_cons, List.flatMap_nil, List.append_nil,
    List.append_assoc]
  simp only [emitted, status_text, border_text, List.flatMap_append, List.flatMap_cons,
    List.flatMap_nil, List.append_nil, List.append_assoc]
  rfl

/-! ## The driver -/

theorem seed_initial_rate_zero (W H : Int) (chance : Nat → Int) (h : ∀ i, 0 ≤ chance i) :
    (seed_initial [] W H 0 chance).1 = [] := by
  rw [List.eq_nil_iff_forall_not_mem]
  intro c hc
  rw [seed_initial_mem] at hc
  rcases hc with hc | ⟨y, _, x, _, hlt, -⟩
  · exact absurd hc (List.not_mem_nil c)
  · have := h (y * W.toNat + x)
    omega

theorem main_loop_extinct (W H : Int) (cfg : Config) (draws : Nat → Nat → Int)
    (fuel seeded : Nat) (hrep : cfg.repopulate = false) :
    main_loop W H cfg draws (fuel + 1) seeded [] =
      some (["\x1b[H"] ++ render [] W H cfg "0" ++ (["\x1b[H"] ++ render [] W H cfg "0") ++
        ["Simulation ended: all visible cells dead.\n"]) := by
  have hu : update W H [] = ([], false) := rfl
  simp only [main_loop, hu, hrep, Bool.false_eq_true, if_false]

end GolSh

/-! ## The properties of the specification -/

/-- Counterexample to C1 as stated: on the 1073741825×5 viewport (`W = 2^30 + 1`) the
middle cell of the blinker in the last column has two live wrapped neighbours, yet it is
not in the successor: the `int` sum `x + 0 + W = 2^31 + 1` overflows and every neighbour
the code computes for the cell has a negative column. The same on the widest viewport,
2147483647×5, where the successor is `{(-2,2), (-4,2)}`. -/
theorem GolSh.survivor_lost_by_overflow :
    GolSh.InViewport 1073741825 5 GolSh.seam_blinker ∧
    ((1073741824, 2) : GolSh.Coord) ∈ GolSh.seam_blinker ∧
    GolSh.live_neighbours 1073741825 5 GolSh.seam_blinker (1073741824, 2) = 2 ∧
    ((1073741824, 2) : GolSh.Coord) ∉ (GolSh.update 1073741825 5 GolSh.seam_blinker).1 ∧
    GolSh.InViewport 2147483647 5 GolSh.edge_blinker ∧
    ((2147483646, 2) : GolSh.Coord) ∈ GolSh.edge_blinker ∧
    GolSh.live_neighbours 2147483647 5 GolSh.edge_blinker (2147483646, 2) = 2 ∧
    (GolSh.update 2147483647 5 GolSh.edge_blinker).1 = [(-2, 2), (-4, 2)] :=
  ⟨by unfold GolSh.InViewport; decide, by decide, by decide, by decide,
    by unfold GolSh.InViewport; decide, by decide, by decide, by decide⟩

/-- C1 amended (survival exactness): on a viewport `W,H ≥ 1`, for a grid whose cells lie
in `[0,W) × [0,H)` and a live cell `c = (x,y)` whose sums `x + 1 + W` and `y + 1 + H` stay
within `int` (or whose size is `2^30`, see `Fits`), the cell is in the successor produced
by `update` exactly when 2 or 3 of the eight offsets have their wrapped neighbour in the
grid; with 0, 1 or at least 4 such neighbours it is not in the successor. -/
theorem GolSh.survival_exactness (W H : Int) (hW : 1 ≤ W) (hH : 1 ≤ H) (G : Grid)
    (hG : InViewport W H G) (c : Coord) (hc : c ∈ G) (hfit : Fits W H [c]) :
    (c ∈ (update W H G).1 ↔
      (live_neighbours W H G c = 2 ∨ live_neighbours W H G c = 3)) ∧
    ((live_neighbours W H G c ≤ 1 ∨ 4 ≤ live_neighbours W H G c) →
      c ∉ (update W H G).1) := by
  have key := mem_update_live W H G c hW hH hG hfit hc
  refine ⟨key, ?_⟩
  intro h hm
  have := key.mp hm
  omega

/-- Witness of C1 amended: the middle cell of a vertical blinker in the last column of the
1073741824×5 torus (`W = 2^30`). -/
theorem GolSh.survival_exactness_witness :
    (((1073741823, 2) : GolSh.Coord) ∈ (GolSh.update 1073741824 5
        [(1073741823, 1), (1073741823, 2), (1073741823, 3)]).1 ↔
      (GolSh.live_neighbours 1073741824 5
          [(1073741823, 1), (1073741823, 2), (1073741823, 3)] (1073741823, 2) = 2 ∨
        GolSh.live_neighbours 1073741824 5
          [(1073741823, 1), (1073741823, 2), (1073741823, 3)] (1073741823, 2) = 3)) ∧
    ((GolSh.live_neighbours 1073741824 5
          [(1073741823, 1), (1073741823, 2), (1073741823, 3)] (1073741823, 2) ≤ 1 ∨
        4 ≤ GolSh.live_neighbours 1073741824 5
          [(1073741823, 1), (1073741823, 2), (1073741823, 3)] (1073741823, 2)) →
      ((1073741823, 2) : GolSh.Coord) ∉ (GolSh.update 1073741824 5
        [(1073741823, 1), (1073741823, 2), (1073741823, 3)]).1) :=
  GolSh.survival_exactness 1073741824 5 (by decide) (by decide)
    [(1073741823, 1), (1073741823, 2), (1073741823, 3)]
    (by unfold GolSh.InViewport; decide) (1073741823, 2) (by decide)
    (by unfold GolSh.Fits; decide)

/-- Counterexample to C2 as stated: on the 1073741825×5 viewport the dead cell `(0,2)`
has exactly three live wrapped neighbours, the blinker in the last column, yet it is not
in the successor: the overflowing sums send the counts to negative columns. The same
on the widest viewport, 2147483647×5. -/
theorem GolSh.birth_missed_by_overflow :
    GolSh.InViewport 1073741825 5 GolSh.seam_blinker ∧
    GolSh.seam_blinker.Nodup ∧
    ((0, 2) : GolSh.Coord) ∉ GolSh.seam_blinker ∧
    GolSh.live_neighbours 1073741825 5 GolSh.seam_blinker (0, 2) = 3 ∧
    ((0, 2) : GolSh.Coord) ∉ (GolSh.update 1073741825 5 GolSh.seam_blinker).1 ∧
    GolSh.InViewport 2147483647 5 GolSh.edge_blinker ∧
    GolSh.edge_blinker.Nodup ∧
    ((0, 2) : GolSh.Coord) ∉ GolSh.edge_blinker ∧
    GolSh.live_neighbours 2147483647 5 GolSh.edge_blinker (0, 2) = 3 ∧
    ((0, 2) : GolSh.Coord) ∉ (GolSh.update 2147483647 5 GolSh.edge_blinker).1 :=
  ⟨by unfold GolSh.InViewport; decide, by decide, by decide, by decide, by decide,
    by unfold GolSh.InViewport; decide, by decide, by decide, by decide, by decide⟩

/-- C2 amended (birth rule): on a viewport `W,H ≥ 1`, for a duplicate-free grid whose
cells lie in `[0,W) × [0,H)` and form no harmful `int` sum (`Fits`: `x + 1 + W` and
`y + 1 + H` within `int` for every live `(x,y)`, or the size `2^30`), and a cell `c` of
the viewport that is dead, `c` is in the successor produced by `update` exactly when three
of the eight wrapped offsets around `c` land on live cells: the tally kept in
`candidate_counts` is the neighbour count seen from `c`. -/
theorem GolSh.birth_rule (W H : Int) (hW : 1 ≤ W) (hH : 1 ≤ H) (G : Grid)
    (hnd : G.Nodup) (hG : InViewport W H G) (hfit : Fits W H G) (c : Coord)
    (hc : 0 ≤ c.1 ∧ c.1 < W ∧ 0 ≤ c.2 ∧ c.2 < H) (hdead : c ∉ G) :
    c ∈ (update W H G).1 ↔ live_neighbours W H G c = 3 := by
  rw [mem_update_iff W H G c hW hH hnd hG hfit]
  simp [hdead, hc]

/-- Witness of C2 amended: the cell left of a vertical blinker on the 5×5 torus. -/
theorem GolSh.birth_rule_witness :
    ((0, 1) : GolSh.Coord) ∈ (GolSh.update 5 5 [(1, 0), (1, 1), (1, 2)]).1 ↔
      GolSh.live_neighbours 5 5 [(1, 0), (1, 1), (1, 2)] (0, 1) = 3 :=
  GolSh.birth_rule 5 5 (by decide) (by decide) [(1, 0), (1, 1), (1, 2)] (by decide)
    (by unfold GolSh.InViewport; decide) (by unfold GolSh.Fits; decide) (0, 1)
    (by decide) (by decide)

/-- Counterexample to C3 as stated: on the 1073741825×5 viewport the successor of the
blinker in the last column holds two cells, both of negative column, and the flag is
`false`, and the same on the widest viewport, 2147483647×5; and on the 65536×65536
viewport the successor of the stripes, a still life, holds `2^31` cells,
`visible_alive_count` wraps to `-2^31`, and the flag is `false`. -/
theorem GolSh.flag_false_on_live_successor :
    GolSh.InViewport 1073741825 5 GolSh.seam_blinker ∧
    GolSh.update 1073741825 5 GolSh.seam_blinker =
      ([(-1073741821, 2), (-1073741823, 2)], false) ∧
    GolSh.InViewport 2147483647 5 GolSh.edge_blinker ∧
    GolSh.update 2147483647 5 GolSh.edge_blinker = ([(-2, 2), (-4, 2)], false) ∧
    GolSh.InViewport 65536 65536 (GolSh.stripes 65536 65536) ∧
    (GolSh.stripes 65536 65536).Nodup ∧
    GolSh.SameCells (GolSh.update 65536 65536 (GolSh.stripes 65536 65536)).1
      (GolSh.stripes 65536 65536) ∧
    (GolSh.update 65536 65536 (GolSh.stripes 65536 65536)).1.length = 2147483648 ∧
    (GolSh.update 65536 65536 (GolSh.stripes 65536 65536)).2 = false := by
  have h := GolSh.stripes_flag 65536 65536 (by decide) (by decide) (by decide) (by decide)
    (by decide)
  have hn : Int.toNat 65536 / 2 * Int.toNat 65536 = 2147483648 := by decide
  rw [hn] at h
  exact ⟨by unfold GolSh.InViewport; decide, by decide,
    by unfold GolSh.InViewport; decide, by decide,
    GolSh.stripes_in_viewport 65536 65536 (by decide), GolSh.stripes_nodup 65536 65536,
    GolSh.stripes_still 65536 65536 (by decide) (by decide) (by decide) (by decide)
      (by decide),
    h.1, h.2.trans (by decide)⟩

/-- C3 amended (extinction flag): on a viewport `W,H ≥ 1`, for a duplicate-free grid whose
cells lie in `[0,W) × [0,H)` and form no harmful `int` sum (`Fits`), the boolean returned
by `update` tells whether the number of cells of the successor `G'`, as the 32-bit `int`
`visible_alive_count` holds it, is positive; when `G'` has fewer than `2^31` cells it
equals `|G'| > 0`. -/
theorem GolSh.extinction_flag (W H : Int) (hW : 1 ≤ W) (hH : 1 ≤ H) (G : Grid)
    (hnd : G.Nodup) (hG : InViewport W H G) (hfit : Fits W H G) :
    (update W H G).2 = decide (0 < wrap_int ((update W H G).1.length)) ∧
    ((update W H G).1.length < 2147483648 →
      (update W H G).2 = decide ((update W H G).1.length > 0)) := by
  have h := update_flag_eq W H G hW hH hnd hG hfit
  refine ⟨h, fun hsize => ?_⟩
  rw [h, wrap_int_of_range _ (by omega) (by omega)]
  simp only [Nat.cast_pos, gt_iff_lt]

/-- Witness of C3 amended: a blinker on the 5×5 torus. -/
theorem GolSh.extinction_flag_witness :
    (GolSh.update 5 5 [(1, 0), (1, 1), (1, 2)]).2 =
      decide (0 < GolSh.wrap_int ((GolSh.update 5 5 [(1, 0), (1, 1), (1, 2)]).1.length)) ∧
    (GolSh.update 5 5 [(1, 0), (1, 1), (1, 2)]).2 =
      decide ((GolSh.update 5 5 [(1, 0), (1, 1), (1, 2)]).1.length > 0) :=
  ⟨(GolSh.extinction_flag 5 5 (by decide) (by decide) [(1, 0), (1, 1), (1, 2)] (by decide)
      (by unfold GolSh.InViewport; decide) (by unfold GolSh.Fits; decide)).1,
    (GolSh.extinction_flag 5 5 (by decide) (by decide) [(1, 0), (1, 1), (1, 2)] (by decide)
      (by unfold GolSh.InViewport; decide) (by unfold GolSh.Fits; decide)).2 (by decide)⟩

/-- Counterexample to C4 as stated: on the 1073741825×5 viewport the successor of the
blinker in the last column, a grid of the viewport, holds the cell `(-1073741821, 2)`
and so leaves the viewport; on the widest viewport, 2147483647×5, it holds `(-4, 2)`. -/
theorem GolSh.successor_leaves_viewport :
    GolSh.InViewport 1073741825 5 GolSh.seam_blinker ∧
    ((-1073741821, 2) : GolSh.Coord) ∈ (GolSh.update 1073741825 5 GolSh.seam_blinker).1 ∧
    ¬ GolSh.InViewport 1073741825 5 (GolSh.update 1073741825 5 GolSh.seam_blinker).1 ∧
    GolSh.InViewport 2147483647 5 GolSh.edge_blinker ∧
    ((-4, 2) : GolSh.Coord) ∈ (GolSh.update 2147483647 5 GolSh.edge_blinker).1 ∧
    ¬ GolSh.InViewport 2147483647 5 (GolSh.update 2147483647 5 GolSh.edge_blinker).1 :=
  ⟨by unfold GolSh.InViewport; decide, by decide, by unfold GolSh.InViewport; decide,
    by unfold GolSh.InViewport; decide, by decide, by unfold GolSh.InViewport; decide⟩

/-- C4 amended (viewport invariant): on a viewport `W,H ≥ 1`, if every cell of a grid lies
in `[0,W) × [0,H)` then the same holds of the grid `seed_initial` leaves (whatever the
spawn rate and the random draws) and, when the grid forms no harmful `int` sum (`Fits`),
of the successor `update` leaves. -/
theorem GolSh.viewport_invariant (W H : Int) (hW : 1 ≤ W) (hH : 1 ≤ H) (G : Grid)
    (hG : InViewport W H G) (spawn_rate : Int) (chance : Nat → Int) :
    InViewport W H (seed_initial G W H spawn_rate chance).1 ∧
    (Fits W H G → InViewport W H (update W H G).1) :=
  ⟨seed_initial_in_viewport G W H spawn_rate chance hG,
    fun hfit => update_in_viewport W H G hW hH hG hfit⟩

/-- Witness of C4 amended: a vertical blinker on the 5×5 viewport, seeded over with every
draw below the rate, and stepped. -/
theorem GolSh.viewport_invariant_witness :
    GolSh.InViewport 5 5 (GolSh.seed_initial [(1, 0), (1, 1), (1, 2)] 5 5 50 (fun _ => 7)).1 ∧
    GolSh.InViewport 5 5 (GolSh.update 5 5 [(1, 0), (1, 1), (1, 2)]).1 :=
  ⟨(GolSh.viewport_invariant 5 5 (by decide) (by decide) [(1, 0), (1, 1), (1, 2)]
      (by unfold GolSh.InViewport; decide) 50 (fun _ => 7)).1,
    (GolSh.viewport_invariant 5 5 (by decide) (by decide) [(1, 0), (1, 1), (1, 2)]
      (by unfold GolSh.InViewport; decide) 50 (fun _ => 7)).2
      (by unfold GolSh.Fits; decide)⟩

/-- C9 (empty persistence): applying `update` to the empty grid leaves the grid empty
and returns the flag `false`, for every viewport. -/
theorem GolSh.empty_persistence (W H : Int) : GolSh.update W H [] = ([], false) := by
  rfl

/-- Counterexample to C5 as stated (`W ≥ 2`, `H ≥ 2`): on the 2×2 torus the four cells
fill the torus, every offset of every cell lands on a live cell, and all four die; on
the 5×2 and 2×5 tori the cell `(0,0)` counts five live offsets and dies; and on the
1073741825×3 torus (`W = 2^30 + 1`) the sums of the two cells of the last column
overflow, and both die. -/
theorem GolSh.corner_block_dies_on_width_two :
    GolSh.update 2 2 (GolSh.corner_block 2 2) = ([], false) ∧
    ((0, 0) : GolSh.Coord) ∈ GolSh.corner_block 5 2 ∧
    ((0, 0) : GolSh.Coord) ∉ (GolSh.update 5 2 (GolSh.corner_block 5 2)).1 ∧
    ((0, 0) : GolSh.Coord) ∈ GolSh.corner_block 2 5 ∧
    ((0, 0) : GolSh.Coord) ∉ (GolSh.update 2 5 (GolSh.corner_block 2 5)).1 ∧
    ((1073741824, 0) : GolSh.Coord) ∈ GolSh.corner_block 1073741825 3 ∧
    GolSh.update 1073741825 3 (GolSh.corner_block 1073741825 3) =
      ([(0, 2), (0, 0)], true) := by
  decide

/-- C5 amended (toroidal wrap): for every viewport with `3 ≤ W ≤ 2^30` and
`3 ≤ H ≤ 2^30`, a grid made of the four cells `(0,0), (W-1,H-1), (W-1,0), (0,H-1)` is a
fixed point of `update`: the successor has the same cells and the returned flag is
`true`. -/
theorem GolSh.toroidal_wrap (W H : Int) (hW : 3 ≤ W) (hH : 3 ≤ H)
    (hW' : W ≤ 1073741824) (hH' : H ≤ 1073741824) (G : Grid)
    (hnd : G.Nodup) (hG : SameCells G (corner_block W H)) :
    SameCells (update W H G).1 G ∧ (update W H G).2 = true := by
  have hstep : ∀ c, c ∈ (update W H G).1 ↔ c ∈ G := fun c =>
    (corner_block_step W H hW hH hW' hH' G hnd hG c).trans (hG c).symm
  refine ⟨hstep, ?_⟩
  have hGv : InViewport W H G := fun x hx =>
    (corner_block_localised.inside W H hW hH x ((hG x).mp hx)).1
  have hcb : (corner_block W H).Nodup := by
    unfold corner_block
    simp only [List.nodup_cons, List.mem_cons, List.mem_singleton, Prod.mk.injEq,
      List.not_mem_nil, List.nodup_nil, not_or, not_and, not_false_eq_true, and_true]
    omega
  have hlen : (update W H G).1.length = 4 := by
    rw [length_eq_of_sameCells _ _ (update_nodup W H G) hnd hstep,
      length_eq_of_sameCells _ _ hnd hcb hG]
    rfl
  rw [update_flag_eq W H G (by omega) (by omega) hnd hGv (fits_of_lt W H G hW' hH' hGv), hlen]
  decide

/-- Witness of C5 amended: the corner block on the 3×3 torus. -/
theorem GolSh.toroidal_wrap_witness :
    GolSh.SameCells (GolSh.update 3 3 (GolSh.corner_block 3 3)).1 (GolSh.corner_block 3 3) ∧
    (GolSh.update 3 3 (GolSh.corner_block 3 3)).2 = true :=
  GolSh.toroidal_wrap 3 3 (by decide) (by decide) (by decide) (by decide)
    (GolSh.corner_block 3 3) (by decide) (fun _ => Iff.rfl)

/-- Counterexample to C6 as stated: on the 2147483646×4 viewport the sum
`x + 1 + W = 2^31` of the cells `(1,1)` and `(1,2)` overflows: both count one live
neighbour and die, and the cells `(-2,1)` and `(-2,2)` are born; likewise for the rows
on the 4×2147483646 viewport; on the widest viewport, 2147483647×4, all four cells die. -/
theorem GolSh.block_breaks_by_overflow :
    ((1, 1) : GolSh.Coord) ∈ GolSh.block ∧
    ((1, 1) : GolSh.Coord) ∉ (GolSh.update 2147483646 4 GolSh.block).1 ∧
    GolSh.update 2147483646 4 GolSh.block = ([(-2, 2), (-2, 1), (2, 2), (2, 1)], true) ∧
    GolSh.update 4 2147483646 GolSh.block = ([(2, -2), (1, -2), (2, 2), (1, 2)], true) ∧
    GolSh.update 2147483647 4 GolSh.block = ([(0, 3), (-1, 1), (-1, 2), (0, 0)], true) := by
  decide

/-- C6 amended (block stability): for every `4 ≤ W ≤ 2147483644` and
`4 ≤ H ≤ 2147483644`, the sizes for which no sum `x + 1 + W`, `y + 1 + H` of a cell of
the block exceeds the largest `int`, a grid made of the cells `(1,1), (2,1), (1,2), (2,2)`
is a fixed point of `update`: the successor has the same cells. -/
theorem GolSh.block_stability (W H : Int) (hW : 4 ≤ W) (hH : 4 ≤ H)
    (hW' : W ≤ 2147483644) (hH' : H ≤ 2147483644) (G : Grid)
    (hnd : G.Nodup) (hG : SameCells G block) :
    SameCells (update W H G).1 G :=
  fun c => (block_step W H hW hH hW' hH' G hnd hG c).trans (hG c).symm

/-- Witness of C6 amended: the block on the 4×4 torus. -/
theorem GolSh.block_stability_witness :
    GolSh.SameCells (GolSh.update 4 4 GolSh.block).1 GolSh.block :=
  GolSh.block_stability 4 4 (by decide) (by decide) (by decide) (by decide) GolSh.block
    (by decide) (fun _ => Iff.rfl)

/-- Counterexample to C7 as stated (`W ≥ 3`, `H ≥ 3`): on a torus of height 3 the
vertical blinker fills its column, so `(1,0)` keeps two live neighbours and survives
the first step; on a torus of width 3 the horizontal blinker fills its row, so `(0,1)`
survives the second step; and on the 2147483646×4 viewport the sum `x + 1 + W = 2^31`
overflows, so the first step gives birth to `(-2,1)` in place of `(2,1)`; on the widest
viewport, 2147483647×4, the first step leaves nothing. -/
theorem GolSh.blinker_wraps_on_size_three :
    ((1, 0) : GolSh.Coord) ∈ (GolSh.update 5 3 GolSh.blinker_v).1 ∧
    ((1, 0) : GolSh.Coord) ∉ GolSh.blinker_h ∧
    ((0, 1) : GolSh.Coord) ∈
      (GolSh.update 3 5 (GolSh.update 3 5 GolSh.blinker_v).1).1 ∧
    ((0, 1) : GolSh.Coord) ∉ GolSh.blinker_v ∧
    ((2, 1) : GolSh.Coord) ∈ GolSh.blinker_h ∧
    GolSh.update 2147483646 4 GolSh.blinker_v = ([(-2, 1), (0, 1), (1, 1)], true) ∧
    GolSh.update 2147483647 4 GolSh.blinker_v = ([], false) := by
  decide

/-- C7 amended (blinker period 2): for every `4 ≤ W ≤ 2147483644` and
`4 ≤ H ≤ 2147483644`, the sizes for which no sum of a cell of the two phases exceeds the
largest `int`, `update` turns a grid made of the cells `(1,0), (1,1), (1,2)` into one made
of `(0,1), (1,1), (2,1)`, and a second `update` gives back the cells of the first grid. -/
theorem GolSh.blinker_period_two (W H : Int) (hW : 4 ≤ W) (hH : 4 ≤ H)
    (hW' : W ≤ 2147483644) (hH' : H ≤ 2147483644) (G : Grid)
    (hnd : G.Nodup) (hG : SameCells G blinker_v) :
    SameCells (update W H G).1 blinker_h ∧
    SameCells (update W H (update W H G).1).1 G := by
  have h1 : ∀ c, c ∈ (update W H G).1 ↔ c ∈ blinker_h :=
    blinker_v_step W H hW hH hW' hH' G hnd hG
  refine ⟨h1, fun c => ?_⟩
  exact (blinker_h_step W H hW hH hW' hH' _ (update_nodup W H G) h1 c).trans (hG c).symm

/-- Witness of C7 amended: the blinker on the 4×4 torus. -/
theorem GolSh.blinker_period_two_witness :
    GolSh.SameCells (GolSh.update 4 4 GolSh.blinker_v).1 GolSh.blinker_h ∧
    GolSh.SameCells (GolSh.update 4 4 (GolSh.update 4 4 GolSh.blinker_v).1).1
      GolSh.blinker_v :=
  GolSh.blinker_period_two 4 4 (by decide) (by decide) (by decide) (by decide)
    GolSh.blinker_v (by decide) (fun _ => Iff.rfl)

/-- Counterexample to C8 as stated: on the 2147483645×8 viewport the sums of the cells of
column 2 and 3 overflow, and after four steps only the cells `(2,3)` and `(1,3)` are
left; the cell `(2,1)` of the translated glider is missing. On the widest viewport,
2147483647×8, the first step gives four cells, not the five of the next generation, and
nothing is left after four steps. -/
theorem GolSh.glider_lost_by_overflow :
    ((2, 1) : GolSh.Coord) ∈ GolSh.shift 2147483645 8 1 1 GolSh.glider ∧
    (GolSh.update 2147483645 8 (GolSh.update 2147483645 8 (GolSh.update 2147483645 8
        (GolSh.update 2147483645 8 GolSh.glider).1).1).1).1 = [(2, 3), (1, 3)] ∧
    GolSh.update 2147483647 8 GolSh.glider = ([(-1, 3), (-1, 2), (0, 0), (1, 2)], true) ∧
    (GolSh.update 2147483647 8 (GolSh.update 2147483647 8 (GolSh.update 2147483647 8
        (GolSh.update 2147483647 8 GolSh.glider).1).1).1).1 = [] := by
  decide

/-- C8 amended (glider translation): the bound `N = 8` works up to the sizes for which
no sum of a cell of the four generations stepped exceeds the largest `int`: for every
`8 ≤ W ≤ 2147483643` and `8 ≤ H ≤ 2147483643`, four successive applications of `update`
to a grid made of the glider cells `(1,0), (2,1), (0,2), (1,2), (2,2)` yield exactly the
cells `((x+1) mod W, (y+1) mod H)` for `(x,y)` in the grid. -/
theorem GolSh.glider_translation (W H : Int) (hW : 8 ≤ W) (hH : 8 ≤ H)
    (hW' : W ≤ 2147483643) (hH' : H ≤ 2147483643) (G : Grid)
    (hnd : G.Nodup) (hG : SameCells G glider) :
    SameCells (update W H (update W H (update W H (update W H G).1).1).1).1
      (shift W H 1 1 G) := by
  have h1 : ∀ c, c ∈ (update W H G).1 ↔ c ∈ glider1 :=
    glider_family_step glider glider1 (by unfold glider; decide) (by unfold glider1; decide)
      (by unfold glider; decide) (by decide) W H hW hH hW' hH' G hnd hG
  have h2 : ∀ c, c ∈ (update W H (update W H G).1).1 ↔ c ∈ glider2 :=
    glider_family_step glider1 glider2 (by unfold glider1; decide)
      (by unfold glider2; decide) (by unfold glider1; decide) (by decide)
      W H hW hH hW' hH' _ (update_nodup W H G) h1
  have h3 : ∀ c, c ∈ (update W H (update W H (update W H G).1).1).1 ↔ c ∈ glider3 :=
    glider_family_step glider2 glider3 (by unfold glider2; decide)
      (by unfold glider3; decide) (by unfold glider2; decide) (by decide)
      W H hW hH hW' hH' _ (update_nodup W H _) h2
  have h4 : ∀ c, c ∈ (update W H (update W H (update W H (update W H G).1).1).1).1 ↔
      c ∈ glider4 :=
    glider_family_step glider3 glider4 (by unfold glider3; decide)
      (by unfold glider4; decide) (by unfold glider3; decide) (by decide)
      W H hW hH hW' hH' _ (update_nodup W H _) h3
  intro c
  rw [h4 c, mem_shift_congr W H 1 1 G glider hG c, shift_glider W H hW hH]

/-- Witness of C8 amended: the glider on the 8×8 torus. -/
theorem GolSh.glider_translation_witness :
    GolSh.SameCells (GolSh.update 8 8 (GolSh.update 8 8 (GolSh.update 8 8
        (GolSh.update 8 8 GolSh.glider).1).1).1).1
      (GolSh.shift 8 8 1 1 GolSh.glider) :=
  GolSh.glider_translation 8 8 (by decide) (by decide) (by decide) (by decide)
    GolSh.glider (by decide) (fun _ => Iff.rfl)

/-- Counterexample to C10 as stated: on the saturated 1073741825×1 torus
(`W = 2^30 + 1`) the cell `(1073741823, 0)` is in the successor: its sums for `dx = 0`
and `dx = 1` overflow and give negative columns, so only the three offsets with
`dx = -1` count as live, and the cell survives. -/
theorem GolSh.saturated_torus_survives_by_overflow :
    ((1073741823, 0) : GolSh.Coord) ∈ GolSh.cells 1073741825 1 ∧
    ((1073741823, 0) : GolSh.Coord) ∈
      (GolSh.update 1073741825 1 (GolSh.cells 1073741825 1)).1 := by
  have hm : ((1073741823, 0) : GolSh.Coord) ∈ GolSh.cells 1073741825 1 :=
    (GolSh.mem_cells _ _ _).mpr (by decide)
  have ha : GolSh.alive_neighbors 1073741825 1 (GolSh.cells 1073741825 1) (1073741823, 0) =
      GolSh.offsets.countP fun d =>
        GolSh.in_window 1073741825 1 (GolSh.neighbor 1073741825 1 (1073741823, 0) d) := by
    unfold GolSh.alive_neighbors
    apply List.countP_congr
    intro d _
    simp only [decide_eq_true_eq, GolSh.mem_cells, GolSh.in_window, ge_iff_le]
  have h3 : GolSh.alive_neighbors 1073741825 1 (GolSh.cells 1073741825 1)
      (1073741823, 0) = 3 := by
    rw [ha]
    decide
  exact ⟨hm, (GolSh.mem_update_code _ _ _ _).mpr (Or.inl ⟨hm, Or.inr h3⟩)⟩

/-- C10 amended (saturated torus dies): on a viewport with `1 ≤ W ≤ 2^30` and
`1 ≤ H ≤ 2^30`, if the grid holds every cell of `[0,W) × [0,H)` then each of its cells has
eight live wrapped neighbours, the successor `update` leaves is empty and the returned
flag is `false`. -/
theorem GolSh.saturated_torus_dies (W H : Int) (hW : 1 ≤ W) (hH : 1 ≤ H)
    (hW' : W ≤ 1073741824) (hH' : H ≤ 1073741824) (G : Grid)
    (hG : ∀ c : Coord, c ∈ G ↔ (0 ≤ c.1 ∧ c.1 < W ∧ 0 ≤ c.2 ∧ c.2 < H)) :
    (∀ c ∈ G, live_neighbours W H G c = 8) ∧ update W H G = ([], false) := by
  have hGv : InViewport W H G := fun c hc => (hG c).mp hc
  have hfit : Fits W H G := fits_of_lt W H G hW' hH' hGv
  have h8 : ∀ c, live_neighbours W H G c = 8 := by
    intro c
    have hlen : offsets.length = 8 := by decide
    unfold live_neighbours
    rw [← hlen, List.countP_eq_length]
    intro d _
    simp only [decide_eq_true_eq]
    exact (hG _).mpr (wrapped_in_viewport W H c d hW hH)
  have hnil : (update W H G).1 = [] := by
    rw [List.eq_nil_iff_forall_not_mem]
    intro c hc
    have hv := update_in_viewport W H G hW hH hGv hfit c hc
    have hm : c ∈ G := (hG c).mpr hv
    have := (mem_update_live W H G c hW hH hGv
      (fun x hx => hfit x (List.mem_singleton.mp hx ▸ hm)) hm).mp hc
    rw [h8 c] at this
    omega
  exact ⟨fun c _ => h8 c, Prod.ext hnil (update_flag_of_nil W H G hnil)⟩

/-- Witness of C10 amended: the saturated 3×3 torus of the specification's scenario. -/
theorem GolSh.saturated_torus_dies_witness :
    (∀ c ∈ GolSh.cells 3 3, GolSh.live_neighbours 3 3 (GolSh.cells 3 3) c = 8) ∧
    GolSh.update 3 3 (GolSh.cells 3 3) = ([], false) :=
  GolSh.saturated_torus_dies 3 3 (by decide) (by decide) (by decide) (by decide)
    (GolSh.cells 3 3) (fun c => GolSh.mem_cells 3 3 c)

/-- C16 (seeder at the degenerate probabilities): for `W,H ≥ 0` and draws in `[0,99]`,
`seed_initial` leaves the empty grid empty at spawn rate 0, and at spawn rate 100 it
produces a duplicate-free grid holding exactly the `W*H` coordinates of
`[0,W) × [0,H)`, the same grid as for any other draws in the range. -/
theorem GolSh.seeder_degenerate (W H : Int) (hW : 0 ≤ W) (hH : 0 ≤ H) (chance : Nat → Int)
    (hdraw : ∀ i, 0 ≤ chance i ∧ chance i ≤ 99) :
    (seed_initial [] W H 0 chance).1 = [] ∧
    (∀ c : Coord, c ∈ (seed_initial [] W H 100 chance).1 ↔
      (0 ≤ c.1 ∧ c.1 < W ∧ 0 ≤ c.2 ∧ c.2 < H)) ∧
    (seed_initial [] W H 100 chance).1.Nodup ∧
    ((seed_initial [] W H 100 chance).1.length : Int) = W * H ∧
    (∀ other : Nat → Int, (∀ i, 0 ≤ other i ∧ other i ≤ 99) →
      seed_initial [] W H 100 other = seed_initial [] W H 100 chance ∧
      seed_initial [] W H 0 other = seed_initial [] W H 0 chance) := by
  have hmem : ∀ c : Coord, c ∈ (seed_initial [] W H 100 chance).1 ↔
      (0 ≤ c.1 ∧ c.1 < W ∧ 0 ≤ c.2 ∧ c.2 < H) := by
    intro c
    rw [seed_initial_mem, ← mem_cells]
    unfold cells
    simp only [List.not_mem_nil, false_or, List.mem_flatMap, List.mem_map]
    constructor
    · rintro ⟨y, hy, x, hx, -, rfl⟩
      exact ⟨y, hy, x, hx, rfl⟩
    · rintro ⟨y, hy, x, hx, rfl⟩
      exact ⟨y, hy, x, hx, by have := hdraw (y * W.toNat + x); omega, rfl⟩
  have hnd := seed_initial_nodup [] W H 100 chance List.nodup_nil
  refine ⟨?_, hmem, hnd, ?_, ?_⟩
  · rw [List.eq_nil_iff_forall_not_mem]
    intro c hc
    rw [seed_initial_mem] at hc
    rcases hc with hc | ⟨y, _, x, _, hlt, -⟩
    · exact absurd hc (List.not_mem_nil c)
    · have := hdraw (y * W.toNat + x)
      omega
  · have hperm : List.Perm (seed_initial [] W H 100 chance).1 (cells W H) :=
      (List.perm_ext_iff_of_nodup hnd (cells_nodup W H)).mpr
        (fun c => (hmem c).trans (mem_cells W H c).symm)
    rw [hperm.length_eq, cells_length]
    push_cast
    rw [Int.toNat_of_nonneg hW, Int.toNat_of_nonneg hH]
    ring
  · intro other hother
    have h1 : ∀ i, chance i < 100 := fun i => by have := hdraw i; omega
    have h2 : ∀ i, other i < 100 := fun i => by have := hother i; omega
    have h3 : ∀ i, ¬ chance i < 0 := fun i => by have := hdraw i; omega
    have h4 : ∀ i, ¬ other i < 0 := fun i => by have := hother i; omega
    constructor
    · simp only [seed_initial, h1, h2, if_true]
    · simp only [seed_initial, h3, h4, if_false]

/-- Witness of C16: a 3×2 viewport, every draw equal to 42. -/
theorem GolSh.seeder_degenerate_witness :
    (GolSh.seed_initial [] 3 2 0 (fun _ => 42)).1 = [] ∧
    (∀ c : GolSh.Coord, c ∈ (GolSh.seed_initial [] 3 2 100 (fun _ => 42)).1 ↔
      (0 ≤ c.1 ∧ c.1 < 3 ∧ 0 ≤ c.2 ∧ c.2 < 2)) ∧
    (GolSh.seed_initial [] 3 2 100 (fun _ => 42)).1.Nodup ∧
    ((GolSh.seed_initial [] 3 2 100 (fun _ => 42)).1.length : Int) = 3 * 2 ∧
    (∀ other : Nat → Int, (∀ i, 0 ≤ other i ∧ other i ≤ 99) →
      GolSh.seed_initial [] 3 2 100 other = GolSh.seed_initial [] 3 2 100 (fun _ => 42) ∧
      GolSh.seed_initial [] 3 2 0 other = GolSh.seed_initial [] 3 2 0 (fun _ => 42)) :=
  GolSh.seeder_degenerate 3 2 (by decide) (by decide) (fun _ => 42)
    (fun _ => ⟨by simp, by simp⟩)

/-- C14 (colour mapping): for each of the nine names with index `n` the code is
`ESC[` followed by the decimal of `30+n` (foreground) or `40+n` (background) and `m`;
every other string, the empty string and `"RED"` among them, gives the empty string. -/
theorem GolSh.colour_mapping :
    (∀ e ∈ [("black", (0 : Int)), ("red", 1), ("green", 2), ("yellow", 3), ("blue", 4),
        ("magenta", 5), ("cyan", 6), ("white", 7), ("default", 9)],
      ansi_color_code e.1 false = "\x1b[" ++ toString (30 + e.2) ++ "m" ∧
      ansi_color_code e.1 true = "\x1b[" ++ toString (40 + e.2) ++ "m") ∧
    ansi_color_code "red" false = "\x1b[31m" ∧
    ansi_color_code "blue" true = "\x1b[44m" ∧
    ansi_color_code "" false = "" ∧
    ansi_color_code "RED" false = "" ∧
    (∀ (color : String) (background : Bool),
      color ∉ ["black", "red", "green", "yellow", "blue", "magenta", "cyan", "white",
        "default"] →
      ansi_color_code color background = "") := by
  refine ⟨by decide, by decide, by decide, by decide, by decide, ?_⟩
  intro color background h
  exact ansi_color_code_unknown color background h

/-- C17 (speed clamping): when `std::stoi` reads the integer `n` from the value of
`--speed`, given as the next argument or after `=`, `parse_args` sets `speed_ms` to
`max(100, min(n, 10000))`; `50` gives `100`, `99999` gives `10000`, and whatever the
arguments `speed_ms` lies in `[100, 10000]` after parsing from the default 250. -/
theorem GolSh.speed_clamping (stoi : String → Option Int) (s : String) (n : Int)
    (prog : String) (cfg : Config) (hs : stoi s = some n) :
    parse_args stoi [prog, "--speed", s] cfg =
      Parsed.done { cfg with speed_ms := max 100 (min n 10000) } ∧
    parse_args stoi [prog, "--speed=" ++ s] cfg =
      Parsed.done { cfg with speed_ms := max 100 (min n 10000) } ∧
    max 100 (min (50 : Int) 10000) = 100 ∧ max 100 (min (99999 : Int) 10000) = 10000 ∧
    (∀ (argv : List String) (cfg' : Config),
      parse_args stoi argv {} = Parsed.done cfg' →
      100 ≤ cfg'.speed_ms ∧ cfg'.speed_ms ≤ 10000) := by
  refine ⟨?_, ?_, by decide, by decide, ?_⟩
  · rw [parse_speed_separate stoi s n prog cfg hs, clamp_eq]
  · rw [parse_speed_joined stoi s n prog cfg hs, clamp_eq]
  · intro argv cfg' h
    exact parse_loop_speed_range stoi argv.tail false {} cfg' h ⟨by decide, by decide⟩

/-- Witness of C17: the value `50` read by a `stoi` that returns 50. -/
theorem GolSh.speed_clamping_witness :
    GolSh.parse_args (fun _ => some 50) ["gof", "--speed", "50"] {} =
      GolSh.Parsed.done { ({} : GolSh.Config) with speed_ms := max 100 (min 50 10000) } ∧
    GolSh.parse_args (fun _ => some 50) ["gof", "--speed=" ++ "50"] {} =
      GolSh.Parsed.done { ({} : GolSh.Config) with speed_ms := max 100 (min 50 10000) } ∧
    max 100 (min (50 : Int) 10000) = 100 ∧ max 100 (min (99999 : Int) 10000) = 10000 ∧
    (∀ (argv : List String) (cfg' : GolSh.Config),
      GolSh.parse_args (fun _ => some 50) argv {} = GolSh.Parsed.done cfg' →
      100 ≤ cfg'.speed_ms ∧ cfg'.speed_ms ≤ 10000) :=
  GolSh.speed_clamping (fun _ => some 50) "50" 50 "gof" {} rfl

/-- Counterexample to C18 as stated: with the default configuration (no explicit
size) a terminal of 2 columns and 3 rows gives the viewport `0 × 0`, and a terminal
reported as `0 × 0` gives `-2 × -3`. -/
theorem GolSh.viewport_not_positive_on_tiny_terminal :
    GolSh.grid_window {} (GolSh.get_terminal_size (some (2, 3))) = (0, 0) ∧
    GolSh.grid_window {} (GolSh.get_terminal_size (some (0, 0))) = (-2, -3) := by
  decide

/-- C18 amended (viewport resolution): the width the driver runs with is at least 1
exactly when `window_width > 0` or the terminal has at least 3 columns, the height
exactly when `window_height > 0` or the terminal has at least 4 rows; with the 80×24
fallback both are at least 1 for every configuration. -/
theorem GolSh.viewport_resolution (cfg : Config) (ws : Option (Nat × Nat)) :
    (1 ≤ (grid_window cfg (get_terminal_size ws)).1 ↔
      (0 < cfg.window_width ∨ 3 ≤ (get_terminal_size ws).1)) ∧
    (1 ≤ (grid_window cfg (get_terminal_size ws)).2 ↔
      (0 < cfg.window_height ∨ 4 ≤ (get_terminal_size ws).2)) ∧
    1 ≤ (grid_window cfg (get_terminal_size none)).1 ∧
    1 ≤ (grid_window cfg (get_terminal_size none)).2 := by
  unfold grid_window
  refine ⟨?_, ?_, ?_, ?_⟩
  · simp only [gt_iff_lt]
    split_ifs <;> omega
  · simp only [gt_iff_lt]
    split_ifs <;> omega
  · simp only [gt_iff_lt, get_terminal_size]
    split_ifs <;> omega
  · simp only [gt_iff_lt, get_terminal_size]
    split_ifs <;> omega

/-- Counterexample to C19 as stated: on a torus one cell wide (or high) the offsets
`dx = -1` and `dx = +1` with `dy = 0` both land on the cell itself, so a lone cell counts
two live neighbours and survives; on the 1×3 torus its two neighbours are born as well. -/
theorem GolSh.lone_cell_survives_on_thin_torus :
    GolSh.update 1 2 [(0, 0)] = ([(0, 0)], true) ∧
    GolSh.update 2 1 [(0, 0)] = ([(0, 0)], true) ∧
    GolSh.update 1 3 [(0, 0)] = ([(0, 1), (0, 2), (0, 0)], true) := by
  decide

/-- C19 amended (isolated cell): on every viewport with `W ≥ 2` and `H ≥ 2`, up to the
largest `int` `2^31 - 1`, and on the 1×1 viewport, applying `update` to the grid made of
one cell of the viewport yields the empty grid and the flag `false`; this holds also
where the `int` sums overflow, the eight neighbours the code computes staying distinct
from the cell and no three of them equal. -/
theorem GolSh.isolated_cell (W H : Int) (hsize : (2 ≤ W ∧ 2 ≤ H) ∨ (W = 1 ∧ H = 1))
    (hint : W ≤ 2147483647 ∧ H ≤ 2147483647)
    (c : Coord) (hc : 0 ≤ c.1 ∧ c.1 < W ∧ 0 ≤ c.2 ∧ c.2 < H) :
    update W H [c] = ([], false) := by
  rcases hsize with ⟨hW, hH⟩ | ⟨rfl, rfl⟩
  · exact single_cell_step W H hW hH hint.1 hint.2 c hc
  · obtain ⟨x, y⟩ := c
    simp only at hc
    obtain rfl : x = 0 := by omega
    obtain rfl : y = 0 := by omega
    decide

/-- Witness of C19 amended: the last cell of the largest viewport, where every sum with
`dx ≥ 0` or `dy ≥ 0` overflows. -/
theorem GolSh.isolated_cell_witness :
    GolSh.update 2147483647 2147483647 [(2147483646, 2147483646)] = ([], false) :=
  GolSh.isolated_cell 2147483647 2147483647 (Or.inl ⟨by decide, by decide⟩)
    ⟨by decide, by decide⟩ (2147483646, 2147483646) (by decide)

/-- Counterexample to C20 as stated: on the 1073741825×5 viewport (`W = 2^30 + 1`) the
vertical blinker of column 1 steps to the horizontal one with the flag `true`; moved by
`(1073741823, 0)` into the last column it steps, its sums overflowing, to two cells of
negative column with the flag `false`. The same on the 1073741829×5 viewport, moved by
`(1073741826, 0)` into column `W - 2`. -/
theorem GolSh.translation_breaks_by_overflow :
    GolSh.InViewport 1073741825 5 [(1, 1), (1, 2), (1, 3)] ∧
    GolSh.shift 1073741825 5 1073741823 0 [(1, 1), (1, 2), (1, 3)] = GolSh.seam_blinker ∧
    (GolSh.update 1073741825 5 [(1, 1), (1, 2), (1, 3)]).2 = true ∧
    (GolSh.update 1073741825 5
      (GolSh.shift 1073741825 5 1073741823 0 [(1, 1), (1, 2), (1, 3)])).2 = false ∧
    ((0, 2) : GolSh.Coord) ∈ GolSh.shift 1073741825 5 1073741823 0
      (GolSh.update 1073741825 5 [(1, 1), (1, 2), (1, 3)]).1 ∧
    ((0, 2) : GolSh.Coord) ∉ (GolSh.update 1073741825 5
      (GolSh.shift 1073741825 5 1073741823 0 [(1, 1), (1, 2), (1, 3)])).1 ∧
    GolSh.update 1073741829 5 [(1, 1), (1, 2), (1, 3)] = ([(2, 2), (0, 2), (1, 2)], true) ∧
    GolSh.update 1073741829 5
      (GolSh.shift 1073741829 5 1073741826 0 [(1, 1), (1, 2), (1, 3)]) =
      ([(-1073741810, 2), (-1073741812, 2)], false) :=
  ⟨by unfold GolSh.InViewport; decide, by decide, by decide, by decide, by decide,
    by decide, by decide, by decide⟩

/-- C20 amended (translation equivariance): on a viewport `W,H ≥ 1`, for a duplicate-free
grid whose cells lie in `[0,W) × [0,H)` and an integer shift `(a,b)` such that neither the
grid nor the shifted grid forms a harmful `int` sum (`Fits`; this is so for every grid
and shift when `W,H ≤ 2^30`), stepping the shifted grid gives the same cells as shifting
the successor, and the same flag. -/
theorem GolSh.translation_equivariance (W H : Int) (hW : 1 ≤ W) (hH : 1 ≤ H) (G : Grid)
    (hnd : G.Nodup) (hG : InViewport W H G) (a b : Int)
    (hfit : Fits W H G) (hfit' : Fits W H (shift W H a b G)) :
    SameCells (update W H (shift W H a b G)).1 (shift W H a b (update W H G).1) ∧
    (update W H (shift W H a b G)).2 = (update W H G).2 :=
  update_shift W H a b G hW hH hnd hG hfit hfit'

/-- Witness of C20 amended: the glider on the 8×8 torus moved by `(7,-3)`. -/
theorem GolSh.translation_equivariance_witness :
    GolSh.SameCells (GolSh.update 8 8 (GolSh.shift 8 8 7 (-3) GolSh.glider)).1
      (GolSh.shift 8 8 7 (-3) (GolSh.update 8 8 GolSh.glider).1) ∧
    (GolSh.update 8 8 (GolSh.shift 8 8 7 (-3) GolSh.glider)).2 =
      (GolSh.update 8 8 GolSh.glider).2 :=
  GolSh.translation_equivariance 8 8 (by decide) (by decide) GolSh.glider (by decide)
    (by unfold GolSh.InViewport; decide) 7 (-3) (by unfold GolSh.Fits; decide)
    (by unfold GolSh.Fits; decide)

/-- Counterexample to C11 as stated: with the live glyph set to a single space
(`--tile-cell " "`) the glyph at column 1 of row 0 of the empty 1×1 grid equals
`cfg.cell` although the cell `(0,0)` is dead; and with the live glyph set to a newline
line 2 of the frame of the grid `{(0,0)}` is cut after the left wall. -/
theorem GolSh.dead_cell_shows_space_glyph :
    GolSh.nth_line 2 (GolSh.emitted (GolSh.render [] 1 1 { cell := " " } "0")) =
      GolSh.emitted ["│", " ", "│", "\n"] ∧
    GolSh.grid_row [] 1 { cell := " " } 0 = ["│", " ", "│", "\n"] ∧
    (GolSh.grid_row [] 1 { cell := " " } 0)[1]? = some ({ cell := " " } : GolSh.Config).cell ∧
    ((0, 0) : GolSh.Coord) ∉ ([] : GolSh.Grid) ∧
    GolSh.nth_line 2 (GolSh.emitted (GolSh.render [(0, 0)] 1 1 { cell := "\n" } "0")) =
      GolSh.emitted ["│", "\n"] ∧
    GolSh.grid_row [(0, 0)] 1 { cell := "\n" } 0 = ["│", "\n", "│", "\n"] := by
  decide

/-- C11 amended (cell placement): for a configuration whose glyphs hold no newline,
every grid, `y` in `[0,H)` and `k` in `[0,W)`, line `y+2` of the emitted frame is
`wall_vertical`, `W` glyphs, `wall_vertical` and a newline; the glyph at column `k+1`
is `cfg.cell` if `(k,y)` is in the grid and a single space otherwise, so that when
`cfg.cell` is not itself a single space it equals `cfg.cell` exactly when `(k,y)` is
in the grid. -/
theorem GolSh.cell_placement (W H : Int) (G : Grid) (cfg : Config) (stable_ratio : String)
    (hcfg : GlyphsOk cfg) (hr : '\n' ∉ stable_ratio.data)
    (y k : Nat) (hy : (y : Int) < H) (hk : (k : Int) < W) :
    nth_line (y + 2) (emitted (render G W H cfg stable_ratio)) =
      emitted (grid_row G W cfg y) ∧
    grid_row G W cfg y =
      [cfg.wall_vertical] ++
      ((List.range W.toNat).map fun (x : Nat) =>
        if ((x : Int), (y : Int)) ∈ G then cfg.cell else " ") ++
      [cfg.wall_vertical, "\n"] ∧
    (grid_row G W cfg y).length = W.toNat + 3 ∧
    (grid_row G W cfg y)[k + 1]? =
      some (if ((k : Int), (y : Int)) ∈ G then cfg.cell else " ") ∧
    (cfg.cell ≠ " " →
      ((grid_row G W cfg y)[k + 1]? = some cfg.cell ↔ ((k : Int), (y : Int)) ∈ G)) := by
  have hidx : (grid_row G W cfg y)[k + 1]? =
      some (if ((k : Int), (y : Int)) ∈ G then cfg.cell else " ") := by
    have hk' : k < W.toNat := by omega
    unfold grid_row
    rw [List.append_assoc, List.singleton_append, List.getElem?_cons_succ,
      List.getElem?_append_left (by simpa using hk'), List.getElem?_map,
      List.getElem?_range hk']
    rfl
  refine ⟨?_, rfl, ?_, hidx, ?_⟩
  · rw [emitted_render, emitted_grid_row]
    apply nth_line_lines _ _ (frame_lines_no_newline G W H cfg stable_ratio hcfg hr)
    have hy' : y < H.toNat := by omega
    unfold frame_lines
    rw [List.getElem?_append_right (by simp),
      List.getElem?_map]
    simp only [List.length_cons, List.length_nil, zero_add, Nat.reduceAdd,
      Nat.add_sub_cancel]
    rw [List.getElem?_range hy']
    rfl
  · unfold grid_row
    simp
  · intro hcell
    rw [hidx]
    by_cases hm : ((k : Int), (y : Int)) ∈ G
    · simp [hm]
    · simp only [hm, if_false, Option.some.injEq, iff_false]
      exact fun e => hcell e.symm

/-- Witness of C11 amended: the cell `(1,0)` of a 2×1 frame with the default glyphs. -/
theorem GolSh.cell_placement_witness :
    GolSh.nth_line (0 + 2) (GolSh.emitted (GolSh.render [(1, 0)] 2 1 {} "0")) =
      GolSh.emitted (GolSh.grid_row [(1, 0)] 2 {} 0) ∧
    GolSh.grid_row [(1, 0)] 2 {} 0 =
      [({} : GolSh.Config).wall_vertical] ++
      ((List.range (2 : Int).toNat).map fun (x : Nat) =>
        if ((x : Int), ((0 : Nat) : Int)) ∈ ([(1, 0)] : GolSh.Grid)
        then ({} : GolSh.Config).cell else " ") ++
      [({} : GolSh.Config).wall_vertical, "\n"] ∧
    (GolSh.grid_row [(1, 0)] 2 {} 0).length = (2 : Int).toNat + 3 ∧
    (GolSh.grid_row [(1, 0)] 2 {} 0)[1 + 1]? =
      some (if (((1 : Nat) : Int), ((0 : Nat) : Int)) ∈ ([(1, 0)] : GolSh.Grid)
        then ({} : GolSh.Config).cell else " ") ∧
    (({} : GolSh.Config).cell ≠ " " →
      ((GolSh.grid_row [(1, 0)] 2 {} 0)[1 + 1]? = some ({} : GolSh.Config).cell ↔
        (((1 : Nat) : Int), ((0 : Nat) : Int)) ∈ ([(1, 0)] : GolSh.Grid))) :=
  GolSh.cell_placement 2 1 [(1, 0)] {} "0" (by unfold GolSh.GlyphsOk; decide) (by decide)
    0 1 (by decide) (by decide)

/-- Counterexample to C12 as stated: the frame of a 1×1 viewport holds 3 newline
characters and that of a 5×5 viewport 7, not `H+3`: no newline follows the bottom
border, which ends with the reset escape. -/
theorem GolSh.frame_has_two_more_newlines_than_rows :
    (GolSh.emitted (GolSh.render [] 1 1 {} "0")).count '\n' = 3 ∧
    (GolSh.emitted (GolSh.render [] 5 5 {} "0")).count '\n' = 7 := by
  decide

/-- C12 amended (frame shape): for every viewport with `H ≥ 0`, every grid and every
configuration whose glyph strings hold no newline, the text emitted by one call of
`render` contains exactly `H+2` newline characters (status line, top border and the
`H` rows; the bottom border is not newline-terminated). -/
theorem GolSh.frame_shape (W H : Int) (hH : 0 ≤ H) (G : Grid) (cfg : Config)
    (stable_ratio : String) (hcfg : GlyphsOk cfg) (hr : '\n' ∉ stable_ratio.data) :
    ((emitted (render G W H cfg stable_ratio)).count '\n' : Int) = H + 2 := by
  have ht : '\n' ∉ border_text cfg.corner_ll W cfg.wall_horizontal cfg.corner_lr ++
      ANSI_RESET.data := by
    simp only [List.mem_append, not_or]
    exact ⟨border_text_no_newline _ _ _ _ hcfg.2.2.2.2.2.1 hcfg.2.1 hcfg.2.2.2.2.2.2,
      by decide⟩
  rw [emitted_render, count_newline_lines _ _
    (frame_lines_no_newline G W H cfg stable_ratio hcfg hr) ht]
  unfold frame_lines
  simp only [List.length_append, List.length_cons, List.length_nil, List.length_map,
    List.length_range]
  omega

/-- Witness of C12 amended: the frame of the empty 5×5 viewport, default glyphs. -/
theorem GolSh.frame_shape_witness :
    ((GolSh.emitted (GolSh.render [] 5 5 {} "0")).count '\n' : Int) = 5 + 2 :=
  GolSh.frame_shape 5 5 (by decide) [] {} "0" (by unfold GolSh.GlyphsOk; decide) (by decide)

/-- C13 (status line): the first line `render` emits (with the stable ratio printed as
`0`) is the two colour codes, `" Alive cells: "`, the decimal size of the grid,
`" (0 % stable)"`, `ESC[K` and a newline; with `color_fg = "red"` it begins with
`ESC[31m`, with `color_bg = "blue"` it contains `ESC[44m`, and with
`color_fg = "magenta"`, `color_bg = "default"` it contains `ESC[35m` and `ESC[49m`. -/
theorem GolSh.status_line (G : Grid) (W H : Int) (cfg : Config) :
    first_line (emitted (render G W H cfg "0")) =
      (ansi_color_code cfg.color_fg false ++ ansi_color_code cfg.color_bg true ++
        " Alive cells: " ++ toString G.length ++ " (0 % stable)" ++ "\x1b[K" ++ "\n").data ∧
    (cfg.color_fg = "red" →
      "\x1b[31m".data <+: first_line (emitted (render G W H cfg "0"))) ∧
    (cfg.color_bg = "blue" →
      "\x1b[44m".data <:+: first_line (emitted (render G W H cfg "0"))) ∧
    (cfg.color_fg = "magenta" → cfg.color_bg = "default" →
      "\x1b[35m".data <:+: first_line (emitted (render G W H cfg "0")) ∧
      "\x1b[49m".data <:+: first_line (emitted (render G W H cfg "0"))) := by
  have hline : first_line (emitted (render G W H cfg "0")) =
      status_text G cfg "0" ++ ['\n'] := by
    rw [emitted_render]
    unfold frame_lines
    simp only [List.cons_append, List.nil_append, List.flatMap_cons, List.append_assoc,
      List.singleton_append]
    exact first_line_append _ _ (status_text_no_newline G cfg "0" (by decide))
  have hsplit : status_text G cfg "0" ++ ['\n'] =
      (ansi_color_code cfg.color_fg false).data ++
        ((ansi_color_code cfg.color_bg true).data ++
          (" Alive cells: ".data ++ (toString G.length).data ++ " (".data ++ "0".data ++
            " % stable)".data ++ "\x1b[K".data ++ ['\n'])) := by
    unfold status_text
    simp only [List.append_assoc]
  refine ⟨?_, ?_, ?_, ?_⟩
  · rw [hline]
    unfold status_text
    simp only [String.data_append, List.append_assoc]
    rfl
  · intro hfg
    have hf : ansi_color_code "red" false = "\x1b[31m" := by decide
    rw [hline, hsplit, hfg, hf]
    exact List.prefix_append _ _
  · intro hbg
    have hb : ansi_color_code "blue" true = "\x1b[44m" := by decide
    rw [hline, hsplit, hbg, hb]
    exact ⟨_, _, List.append_assoc _ _ _⟩
  · intro hfg hbg
    have hb : ansi_color_code "default" true = "\x1b[49m" := by decide
    have hf : ansi_color_code "magenta" false = "\x1b[35m" := by decide
    rw [hline, hsplit, hfg, hbg, hb, hf]
    exact ⟨(List.prefix_append _ _).isInfix, ⟨_, _, List.append_assoc _ _ _⟩⟩

/-- Witness of C13: the status line for magenta on default. -/
theorem GolSh.status_line_witness :
    "\x1b[35m".data <:+: GolSh.first_line (GolSh.emitted
      (GolSh.render [] 5 5 { color_fg := "magenta", color_bg := "default" } "0")) ∧
    "\x1b[49m".data <:+: GolSh.first_line (GolSh.emitted
      (GolSh.render [] 5 5 { color_fg := "magenta", color_bg := "default" } "0")) :=
  (GolSh.status_line [] 5 5 { color_fg := "magenta", color_bg := "default" }).2.2.2 rfl rfl

set_option maxRecDepth 100000 in
/-- Counterexample to C15 as stated: on the 5×5 viewport with coverage 0 and no
repopulation the driver writes the frame twice (cursor-home and frame before `update`,
cursor-home and frame again after `update` reports extinction) before the final
message, not once. -/
theorem GolSh.driver_renders_final_frame_again :
    GolSh.run { window_width := 5, window_height := 5, init_coverage := 0, repopulate := false }
        none (fun _ _ => 0) 1 =
      some (["\x1b[H"] ++
          GolSh.render [] 5 5
            { window_width := 5, window_height := 5, init_coverage := 0, repopulate := false }
            "0" ++
          (["\x1b[H"] ++
            GolSh.render [] 5 5
              { window_width := 5, window_height := 5, init_coverage := 0, repopulate := false }
              "0") ++
          ["Simulation ended: all visible cells dead.\n"], 0) ∧
    GolSh.run { window_width := 5, window_height := 5, init_coverage := 0, repopulate := false }
        none (fun _ _ => 0) 1 ≠
      some (["\x1b[H"] ++
          GolSh.render [] 5 5
            { window_width := 5, window_height := 5, init_coverage := 0, repopulate := false }
            "0" ++
          ["Simulation ended: all visible cells dead.\n"], 0) := by
  decide

/-- C15 amended (driver scenario S1): with an explicit viewport `W,H ≥ 1`, coverage 0
and `repopulate = false`, whatever the terminal size and the draws in `[0,99]`, the
driver writes cursor-home and the frame of the empty `W × H` grid, then, `update` having
reported extinction, cursor-home and the same frame once more, then the line
`"Simulation ended: all visible cells dead."`; the loop ends in its first pass and
`main` returns 0. -/
theorem GolSh.driver_scenario_one (W H : Int) (hW : 1 ≤ W) (hH : 1 ≤ H) (cfg : Config)
    (ws : Option (Nat × Nat)) (draws : Nat → Nat → Int) (fuel : Nat)
    (hw : cfg.window_width = W) (hh : cfg.window_height = H)
    (hcov : cfg.init_coverage = 0) (hrep : cfg.repopulate = false)
    (hdraw : ∀ k i, 0 ≤ draws k i ∧ draws k i ≤ 99) (hfuel : 1 ≤ fuel) :
    run cfg ws draws fuel =
      some (["\x1b[H"] ++ render [] W H cfg "0" ++ (["\x1b[H"] ++ render [] W H cfg "0") ++
        ["Simulation ended: all visible cells dead.\n"], 0) := by
  obtain ⟨f, rfl⟩ : ∃ f, fuel = f + 1 := ⟨fuel - 1, by omega⟩
  have hgw : grid_window cfg (get_terminal_size ws) = (W, H) := by
    unfold grid_window
    rw [hw, hh, if_pos (by omega), if_pos (by omega)]
  unfold run
  simp only [hgw, hcov]
  rw [seed_initial_rate_zero W H (draws 0) (fun i => (hdraw 0 i).1),
    main_loop_extinct W H cfg draws f 1 hrep]
  rfl

/-- Witness of C15 amended: the 5×5 viewport of the scenario, fallback terminal size. -/
theorem GolSh.driver_scenario_one_witness :
    GolSh.run { window_width := 5, window_height := 5, init_coverage := 0, repopulate := false }
        none (fun _ _ => 42) 3 =
      some (["\x1b[H"] ++
          GolSh.render [] 5 5
            { window_width := 5, window_height := 5, init_coverage := 0, repopulate := false }
            "0" ++
          (["\x1b[H"] ++
            GolSh.render [] 5 5
              { window_width := 5, window_height := 5, init_coverage := 0, repopulate := false }
              "0") ++
          ["Simulation ended: all visible cells dead.\n"], 0) :=
  GolSh.driver_scenario_one 5 5 (by decide) (by decide)
    { window_width := 5, window_height := 5, init_coverage := 0, repopulate := false }
    none (fun _ _ => 42) 3 rfl rfl rfl rfl (fun _ _ => ⟨by simp, by simp⟩) (by decide)
